import Mathlib

/-!
Verification of the cashflow balance-projection engine.

The definitions below are a shallow embedding of the projection core
(`generateMonthRange`, `isPlanActiveInMonth`, `buildMonthItems`,
`calculateBalances`, `findEarliestAffordableMonth`) of the plan + entry
variant of the calculations module.  Amounts are modelled as exact
integers (the specification mandates a drift-free decimal or
integer-minor-unit representation).  JavaScript string comparison
(UTF-16 code-unit lexicographic order) is embedded as a boolean
lexicographic comparison on the character list of the string.
-/

namespace Cashflow

/-- A category direction: the `type` field of a category, `income` or `expense`. -/
inductive CategoryType where
  | income
  | expense
deriving DecidableEq, Repr

/-- A category record.  Presentation-only fields (icon, color) are omitted;
the core reads only `type` (and carries `id`, `name` opaquely). -/
structure Category where
  id : String
  name : String
  type : CategoryType
deriving DecidableEq, Repr

/-- Plan frequency: one-time, weekly, biweekly or monthly. -/
inductive Frequency where
  | oneTime
  | weekly
  | biweekly
  | monthly
deriving DecidableEq, Repr

/-- Plan status: active or completed. -/
inductive PlanStatus where
  | active
  | completed
deriving DecidableEq, Repr

/-- A plan: a recurring or one-time financial commitment.  The owning
category is carried embedded (by object reference in the source). -/
structure Plan where
  id : String
  name : String
  category : Category
  expected_amount : Int
  frequency : Frequency
  start_month : String
  end_month : Option String
  status : PlanStatus
deriving DecidableEq, Repr

/-- An entry: a recorded transaction fulfilling one plan occurrence.  It
carries the id of its plan (`plan_id`) and the plan object itself embedded
(`plan`), exactly as the source data does. -/
structure Entry where
  id : String
  plan_id : String
  month_year : String
  amount : Int
  plan : Plan
deriving DecidableEq, Repr

/-- A derived month line item.  The source represents this as one record
with a `type` tag and optional `entry` / `plan` payloads where the payload
matching the tag is always populated (and the plan of a realized item is
always the plan embedded in its entry); it is embedded as the
corresponding tagged variant.  `wouldCauseDebt` is absent (undefined,
i.e. `false`) on freshly built items and is set during projection. -/
inductive MonthItem where
  | entryItem (entry : Entry) (month_year : String) (wouldCauseDebt : Bool)
  | expectedItem (plan : Plan) (month_year : String) (wouldCauseDebt : Bool)
deriving DecidableEq, Repr

/-- `item.type === "entry"`. -/
def MonthItem.isEntry : MonthItem → Bool
  | .entryItem _ _ _ => true
  | .expectedItem _ _ _ => false

/-- The category consulted by the source:
`item.type === "entry" ? item.entry!.plan.category : item.plan!.category`. -/
def MonthItem.category : MonthItem → Category
  | .entryItem e _ _ => e.plan.category
  | .expectedItem p _ _ => p.category

/-- The amount consulted by the source:
`item.type === "entry" ? item.entry!.amount : item.plan!.expected_amount`. -/
def MonthItem.amount : MonthItem → Int
  | .entryItem e _ _ => e.amount
  | .expectedItem p _ _ => p.expected_amount

/-- The signed delta of an item:
`category.type === "income" ? amount : -amount`. -/
def MonthItem.delta (it : MonthItem) : Int :=
  match it.category.type with
  | .income => it.amount
  | .expense => -it.amount

/-- The `wouldCauseDebt` flag of an item (`false` when absent). -/
def MonthItem.flag : MonthItem → Bool
  | .entryItem _ _ b => b
  | .expectedItem _ _ b => b

/-- Overwrite the `wouldCauseDebt` flag of an item. -/
def MonthItem.setFlag : MonthItem → Bool → MonthItem
  | .entryItem e m _, b => .entryItem e m b
  | .expectedItem p m _, b => .expectedItem p m b

/-- `item.type === "entry" && item.entry?.id === x` (the dedup test of the
builder). -/
def MonthItem.hasEntryId : MonthItem → String → Bool
  | .entryItem e _ _, x => e.id == x
  | .expectedItem _ _ _, _ => false

/-- JavaScript string `<` (UTF-16 code-unit lexicographic comparison),
embedded as lexicographic comparison of the character lists. -/
def charListLt : List Char → List Char → Bool
  | _, [] => false
  | [], _ :: _ => true
  | a :: as, b :: bs => if a < b then true else if b < a then false else charListLt as bs

/-- `s < t` on JavaScript strings. -/
def strLt (s t : String) : Bool := charListLt s.data t.data

/-- `s > t` on JavaScript strings. -/
def strGt (s t : String) : Bool := strLt t s

/--
`isPlanActiveInMonth(plan, monthId)`:

    if (plan.status === "completed") return false
    if (monthId < plan.start_month) return false
    if (plan.end_month && monthId > plan.end_month) return false
    if (plan.frequency === "one-time" && monthId !== plan.start_month) return false
    return true
-/
def isPlanActiveInMonth (plan : Plan) (monthId : String) : Bool :=
  if plan.status = .completed then false
  else if strLt monthId plan.start_month then false
  else if (match plan.end_month with
           | some em => strGt monthId em
           | none => false) then false
  else if plan.frequency = .oneTime ∧ monthId ≠ plan.start_month then false
  else true

/-- The grouping key of the builder: the template literal
`` `${plan_id}-${month_year}` ``. -/
def mkKey (pid m : String) : String := pid ++ "-" ++ m

/-- The `entriesByPlanAndMonth` index: each entry is appended to the list
stored under its `mkKey`, starting from an empty map (a missing key reads
as `[]`, matching `get(key) || []`). -/
def entriesByPlanAndMonth (entries : List Entry) : String → List Entry :=
  entries.foldl
    (fun mp e => fun k =>
      if k = mkKey e.plan_id e.month_year then mp k ++ [e] else mp k)
    (fun _ => [])

/-- The expected occurrence count per active month:
`plan.frequency === "biweekly" ? 2 : plan.frequency === "weekly" ? 4 : 1`. -/
def expectedCount : Frequency → Nat
  | .biweekly => 2
  | .weekly => 4
  | _ => 1

/-- A freshly pushed realized item (`{ type: "entry", entry, plan: entry.plan,
month_year: monthId }`). -/
def realizedOf (e : Entry) (m : String) : MonthItem := .entryItem e m false

/-- A freshly pushed expected item (`{ type: "expected", plan, month_year:
monthId }`). -/
def expectedOf (p : Plan) (m : String) : MonthItem := .expectedItem p m false

/-- The per-plan block of the builder loop: push one realized item per
fulfilling entry, then, if the plan is active, one expected item per
remaining expected occurrence. -/
def planBlock (entries : List Entry) (m : String) (plan : Plan) : List MonthItem :=
  (entriesByPlanAndMonth entries (mkKey plan.id m)).map (realizedOf · m) ++
    (if isPlanActiveInMonth plan m then
      List.replicate
        (expectedCount plan.frequency - (entriesByPlanAndMonth entries (mkKey plan.id m)).length)
        (expectedOf plan m)
    else [])

/-- The items pushed by the plan loop for month `m`. -/
def planPhaseItems (plans : List Plan) (entries : List Entry) (m : String) : List MonthItem :=
  plans.flatMap (planBlock entries m)

/-- One step of the month-entries loop: push the entry as a realized item
unless an entry item with the same entry id is already present. -/
def addEntryIfMissing (m : String) (acc : List MonthItem) (e : Entry) : List MonthItem :=
  if acc.any (fun it => it.hasEntryId e.id) then acc else acc ++ [realizedOf e m]

/-- The month-entries loop: fold `addEntryIfMissing` over the entries
recorded into month `m` (`entries.filter(e => e.month_year === monthId)`). -/
def withMonthEntries (items : List MonthItem) (entries : List Entry) (m : String) :
    List MonthItem :=
  (entries.filter (fun e => e.month_year == m)).foldl (addEntryIfMissing m) items

/-- Is the item in the income bucket of the final sort comparator. -/
def MonthItem.isIncome (it : MonthItem) : Bool := it.category.type == .income

/-- Is the item in the expense bucket of the final sort comparator. -/
def MonthItem.isExpense (it : MonthItem) : Bool := it.category.type == .expense

/-- The final sort of the builder.  The source calls the (stable, per the
ECMAScript specification) `Array.prototype.sort` with a comparator that
returns -1 for (income, expense), 1 for (expense, income) and 0 otherwise;
since every item falls in exactly one of the two buckets, the unique
stable-sort result is the income items in emission order followed by the
expense items in emission order, which is what this definition produces. -/
def sortItems (items : List MonthItem) : List MonthItem :=
  items.filter MonthItem.isIncome ++ items.filter MonthItem.isExpense

/-- The item list built for month `m`, before the final sort. -/
def monthItemsUnsorted (plans : List Plan) (entries : List Entry) (m : String) :
    List MonthItem :=
  withMonthEntries (planPhaseItems plans entries m) entries m

/-- The item list built for month `m` (the value stored in the result map). -/
def monthItemsFor (plans : List Plan) (entries : List Entry) (m : String) : List MonthItem :=
  sortItems (monthItemsUnsorted plans entries m)

/-- `buildMonthItems(plans, entries, monthIds)`: the resulting map, read as
a partial function from month keys.  Every requested month key is mapped
(first initialised to `[]`, then overwritten with the built list, which
depends only on the month key); other keys are absent. -/
def buildMonthItems (plans : List Plan) (entries : List Entry) (monthIds : List String) :
    String → Option (List MonthItem) :=
  fun m =>
    if monthIds.contains m then some (monthItemsFor plans entries m) else none

/-- `expectedBalance`: `items.reduce((sum, item) => sum + delta, 0)`. -/
def expectedBalance (items : List MonthItem) : Int :=
  items.foldl (fun s it => s + it.delta) 0

/-- `actualBalance`: like `expectedBalance` but entry items only. -/
def actualBalance (items : List MonthItem) : Int :=
  items.foldl (fun s it => if it.isEntry then s + it.delta else s) 0

/-- The debt-warning walk: a local running balance starts from the prior
cumulative expected balance; after applying the signed delta of each item,
an expected expense item whose application left the running balance
negative gets `wouldCauseDebt` set to `true`. -/
def applyDebtFlags (balance : Int) : List MonthItem → List MonthItem
  | [] => []
  | it :: rest =>
    let rb := balance + it.delta
    let it2 :=
      if it.isEntry = false ∧ it.category.type = .expense ∧ rb < 0 then it.setFlag true
      else it
    it2 :: applyDebtFlags rb rest

/-- Digit characters used by the month-key formatter. -/
def digitChar : Nat → Char
  | 0 => '0'
  | 1 => '1'
  | 2 => '2'
  | 3 => '3'
  | 4 => '4'
  | 5 => '5'
  | 6 => '6'
  | 7 => '7'
  | 8 => '8'
  | 9 => '9'
  | _ => '*'

/-- Numeric value of a digit character. -/
def digitVal (c : Char) : Nat := c.toNat - 48

/-- Is the character a decimal digit. -/
def isDigitCh (c : Char) : Bool := decide ('0' ≤ c) && decide (c ≤ '9')

/-- Decimal digits of a natural number, most significant first; the fuel
argument only bounds the recursion depth and is irrelevant once it exceeds
the number. -/
def natDigitsAux : Nat → Nat → List Char
  | 0, _ => []
  | fuel + 1, n =>
    if n < 10 then [digitChar n] else natDigitsAux fuel (n / 10) ++ [digitChar (n % 10)]

/-- Decimal digits of a natural number, most significant first. -/
def natDigits (n : Nat) : List Char := natDigitsAux (n + 1) n

/-- Left-pad a character list with zeros to the given width (never
truncates, like the date-fns `yyyy` / `MM` patterns). -/
def padLeftZeros (w : Nat) (cs : List Char) : List Char :=
  List.replicate (w - cs.length) '0' ++ cs

/-- The `yyyy` pattern: the year, zero-padded to at least four digits. -/
def yearChars (y : Nat) : List Char := padLeftZeros 4 (natDigits y)

/-- The `MM` pattern: the month number, zero-padded to two digits. -/
def monthChars (mo : Nat) : List Char := padLeftZeros 2 (natDigits mo)

/-- `generateMonthId` / `format(date, "yyyy-MM")` applied to the calendar
month with absolute month index `k` (year `k / 12`, month `k % 12 + 1`).
`addMonths` on the first day of a month is exactly this index arithmetic,
since day 1 exists in every month. -/
def formatMonthIdx (k : Nat) : String :=
  ⟨yearChars (k / 12) ++ '-' :: monthChars (k % 12 + 1)⟩

/-- `parse(monthId, "yyyy-MM", refDate)`: accepts a four-digit year, a
dash and a two-digit month between 01 and 12, and yields the calendar
month; date-fns resets the units below the month (day, time) to their
minimum, so the reference date never influences the result.  Malformed
keys yield `none` (an invalid date in the source). -/
def parseMonthKey (s : String) : Option (Nat × Nat) :=
  match s.data with
  | [a, b, c, d, dash, e, f] =>
    if dash = '-' ∧ isDigitCh a = true ∧ isDigitCh b = true ∧ isDigitCh c = true
        ∧ isDigitCh d = true ∧ isDigitCh e = true ∧ isDigitCh f = true
        ∧ 1 ≤ digitVal e * 10 + digitVal f ∧ digitVal e * 10 + digitVal f ≤ 12 then
      some (((digitVal a * 10 + digitVal b) * 10 + digitVal c) * 10 + digitVal d,
        digitVal e * 10 + digitVal f)
    else none
  | _ => none

/-- The absolute month index of a parsed key. -/
def monthIdxOf (y mo : Nat) : Nat := y * 12 + (mo - 1)

/--
`generateMonthRange(startMonth, count)`:

    const start = parse(startMonth, "yyyy-MM", new Date())
    const months = []
    for (let i = 0; i < count; i++) months.push(generateMonthId(addMonths(start, i)))
    return months

A malformed start key gives an invalid date (formatting it throws in the
source); modelled by the empty range, unreachable for well-formed keys. -/
def generateMonthRange (startMonth : String) (count : Nat) : List String :=
  match parseMonthKey startMonth with
  | some (y, mo) => (List.range count).map (fun i => formatMonthIdx (monthIdxOf y mo + i))
  | none => []

/-- Month abbreviations of the `MMM` pattern. -/
def monthAbbrev : Nat → String
  | 1 => "Jan"
  | 2 => "Feb"
  | 3 => "Mar"
  | 4 => "Apr"
  | 5 => "May"
  | 6 => "Jun"
  | 7 => "Jul"
  | 8 => "Aug"
  | 9 => "Sep"
  | 10 => "Oct"
  | 11 => "Nov"
  | 12 => "Dec"
  | _ => ""

/-- `formatMonthName(monthId)`: `format(parse(monthId, "yyyy-MM", ...), "MMM yyyy")`. -/
def formatMonthName (monthId : String) : String :=
  match parseMonthKey monthId with
  | some (_, mo) =>
    match monthId.data with
    | a :: b :: c :: d :: _ => monthAbbrev mo ++ " " ++ ⟨[a, b, c, d]⟩
    | _ => "Invalid Date"
  | none => "Invalid Date"

/-- A month summary (`MonthData`): the per-month output of the projection. -/
structure MonthData where
  id : String
  name : String
  items : List MonthItem
  expectedBalance : Int
  actualBalance : Int
  cumulativeExpected : Int
  cumulativeActual : Int
deriving DecidableEq, Repr

/-- The body of the `monthIds.map` of `calculateBalances`, with the two
mutable accumulators `cumulativeExpected` / `cumulativeActual` made
explicit state. -/
def calcAux (itemsOf : String → List MonthItem) (ce ca : Int) :
    List String → List MonthData
  | [] => []
  | m :: rest =>
    let items := itemsOf m
    let eb := expectedBalance items
    let ab := actualBalance items
    let flagged := applyDebtFlags ce items
    let ce2 := ce + eb
    let ca2 := ca + ab
    { id := m
      name := formatMonthName m
      items := flagged
      expectedBalance := eb
      actualBalance := ab
      cumulativeExpected := ce2
      cumulativeActual := ca2 } :: calcAux itemsOf ce2 ca2 rest

/-- `calculateBalances(monthIds, plans, entries, startingBalance)`. -/
def calculateBalances (monthIds : List String) (plans : List Plan) (entries : List Entry)
    (startingBalance : Int) : List MonthData :=
  calcAux (fun m => (buildMonthItems plans entries monthIds m).getD [])
    startingBalance startingBalance monthIds

/-- `findEarliestAffordableMonth(amount, months)`: scan in order, return
the id of the first month whose cumulative expected balance covers the
amount. -/
def findEarliestAffordableMonth (amount : Int) : List MonthData → Option String
  | [] => none
  | m :: rest =>
    if m.cumulativeExpected ≥ amount then some m.id
    else findEarliestAffordableMonth amount rest

/-! ### Specification vocabulary used in theorem statements -/

/-- Sum of the signed deltas of a list of items. -/
def deltaSum (items : List MonthItem) : Int := (items.map MonthItem.delta).sum

/-- Sum of per-month expected balances over a list of month keys, for a
given items-per-month function. -/
def ebSum (f : String → List MonthItem) (ms : List String) : Int :=
  (ms.map (fun m => expectedBalance (f m))).sum

/-- Sum of per-month actual balances over a list of month keys. -/
def abSum (f : String → List MonthItem) (ms : List String) : Int :=
  (ms.map (fun m => actualBalance (f m))).sum

/-- The item is a realized item wrapping exactly the entry `e`. -/
def isRealizedEntry (e : Entry) : MonthItem → Bool
  | .entryItem e2 _ _ => e2 == e
  | .expectedItem _ _ _ => false

/-- The item is an expected item for exactly the plan `p`. -/
def isExpectedOfPlan (p : Plan) : MonthItem → Bool
  | .expectedItem q _ _ => q == p
  | .entryItem _ _ _ => false

/-- Decimal value of a digit-character list. -/
def digitsVal (cs : List Char) : Nat := cs.foldl (fun a c => 10 * a + digitVal c) 0

/-- Helper for `keyMonthVal`: reads the non-digit tail of a key (expected
to be a dash and two digit characters standing for a month 01..12) given
the length and value of the leading digit run. -/
def keyTail : List Char → Nat → Nat → Option Nat
  | [c, m1, m2], dslen, dsval =>
    if c = '-' ∧ 4 ≤ dslen ∧ isDigitCh m1 = true ∧ isDigitCh m2 = true
        ∧ 1 ≤ digitVal m1 * 10 + digitVal m2 ∧ digitVal m1 * 10 + digitVal m2 ≤ 12 then
      some (dsval * 12 + (digitVal m1 * 10 + digitVal m2 - 1))
    else none
  | _, _, _ => none

/-- The semantic month value of a produced key: leading decimal digits (at
least four, the year), a dash, and a two-digit month between 01 and 12,
read as an absolute month index.  Used only to state what a generated key
denotes; not part of the embedded program. -/
def keyMonthVal (s : String) : Option Nat :=
  keyTail (s.data.dropWhile isDigitCh) (s.data.takeWhile isDigitCh).length
    (digitsVal (s.data.takeWhile isDigitCh))

/-- A bare month summary with a given id and cumulative expected balance
(other fields irrelevant), used for concrete affordability examples. -/
def mkSummary (id : String) (ce : Int) : MonthData :=
  { id := id, name := "", items := [], expectedBalance := 0, actualBalance := 0,
    cumulativeExpected := ce, cumulativeActual := 0 }

/-! ### Concrete sample data for witnesses and counterexamples -/

/-- A sample expense category. -/
def catExp : Category := { id := "c-exp", name := "Spending", type := .expense }

/-- A sample income category. -/
def catInc : Category := { id := "c-inc", name := "Salary", type := .income }

/-- A monthly expense plan of 500 starting 2025-01 (the wouldCauseDebt
scenario). -/
def p500 : Plan :=
  { id := "p1", name := "Big buy", category := catExp, expected_amount := 500,
    frequency := .monthly, start_month := "2025-01", end_month := none, status := .active }

/-- A weekly expense plan of 50 starting 2025-01. -/
def pWeekly : Plan :=
  { id := "pw", name := "Coffee", category := catExp, expected_amount := 50,
    frequency := .weekly, start_month := "2025-01", end_month := none, status := .active }

/-- A one-time plan starting 2025-03 with a later end month. -/
def pOneTime : Plan :=
  { id := "po", name := "Laptop", category := catExp, expected_amount := 900,
    frequency := .oneTime, start_month := "2025-03", end_month := some "2025-06",
    status := .active }

/-- A monthly income plan of 3000 starting 2025-01. -/
def pSalary : Plan :=
  { id := "ps", name := "Salary", category := catInc, expected_amount := 3000,
    frequency := .monthly, start_month := "2025-01", end_month := none, status := .active }

/-- A plan object that is absent from every supplied plan list. -/
def pGhost : Plan :=
  { id := "ghost", name := "Gone", category := catExp, expected_amount := 70,
    frequency := .monthly, start_month := "2025-01", end_month := none, status := .active }

/-- An entry recorded into 2025-01 whose `plan_id` matches no supplied
plan (its plan object rides along embedded, as in the source data). -/
def eGhost : Entry :=
  { id := "e-ghost", plan_id := "ghost", month_year := "2025-01", amount := 70,
    plan := pGhost }

/-- An entry fulfilling `pSalary` in 2025-01. -/
def eSalaryJan : Entry :=
  { id := "e-sal", plan_id := "ps", month_year := "2025-01", amount := 2950,
    plan := pSalary }

/-- The second summary of a concrete two-month projection of `pSalary`
from a zero starting balance (used as a conservation witness). -/
def c1md : MonthData :=
  { id := "2025-02", name := "Feb 2025",
    items := [.expectedItem pSalary "2025-02" false],
    expectedBalance := 3000, actualBalance := 0,
    cumulativeExpected := 6000, cumulativeActual := 0 }

/-- The summary produced in the wouldCauseDebt scenario: starting balance
100, one month, one expected expense of 500. -/
def c2md : MonthData :=
  { id := "2025-01", name := "Jan 2025",
    items := [.expectedItem p500 "2025-01" true],
    expectedBalance := -500, actualBalance := 0,
    cumulativeExpected := -400, cumulativeActual := 100 }

/-! ### Basic item lemmas -/

theorem setFlag_delta (it : MonthItem) (b : Bool) : (it.setFlag b).delta = it.delta := by
  cases it <;> rfl

theorem setFlag_isEntry (it : MonthItem) (b : Bool) : (it.setFlag b).isEntry = it.isEntry := by
  cases it <;> rfl

theorem setFlag_category (it : MonthItem) (b : Bool) : (it.setFlag b).category = it.category := by
  cases it <;> rfl

theorem setFlag_flag (it : MonthItem) (b : Bool) : (it.setFlag b).flag = b := by
  cases it <;> rfl

theorem deltaSum_nil : deltaSum [] = 0 := rfl

theorem deltaSum_cons (it : MonthItem) (l : List MonthItem) :
    deltaSum (it :: l) = it.delta + deltaSum l := by
  simp [deltaSum]

theorem expectedBalance_eq_deltaSum (items : List MonthItem) :
    expectedBalance items = deltaSum items := by
  have key : ∀ (l : List MonthItem) (a : Int),
      l.foldl (fun s it => s + it.delta) a = a + deltaSum l := by
    intro l
    induction l with
    | nil => intro a; simp [deltaSum]
    | cons hd tl ih => intro a; simp only [List.foldl_cons, ih, deltaSum_cons]; ring
  simpa [expectedBalance, deltaSum] using key items 0

/-! ### The entry index -/

theorem entriesByPlanAndMonth_eq_filter (entries : List Entry) (k : String) :
    entriesByPlanAndMonth entries k
      = entries.filter (fun e => mkKey e.plan_id e.month_year == k) := by
  have key : ∀ (es : List Entry) (mp : String → List Entry),
      (es.foldl
        (fun mp e => fun k2 =>
          if k2 = mkKey e.plan_id e.month_year then mp k2 ++ [e] else mp k2) mp) k
      = mp k ++ es.filter (fun e => mkKey e.plan_id e.month_year == k) := by
    intro es
    induction es with
    | nil => intro mp; simp
    | cons e es ih =>
      intro mp
      simp only [List.foldl_cons, ih, List.filter_cons]
      by_cases h : mkKey e.plan_id e.month_year = k
      · simp [h]
      · simp [h, Ne.symm h]
  simpa [entriesByPlanAndMonth] using key entries (fun _ => [])

theorem mkKey_right_cancel {a b m : String} : mkKey a m = mkKey b m ↔ a = b := by
  constructor
  · intro h
    have hd := congrArg String.data h
    simp only [mkKey, String.data_append] at hd
    rw [List.append_assoc, List.append_assoc] at hd
    exact String.ext (List.append_cancel_right hd)
  · intro h; rw [h]

/-! ### The projection accumulator -/

theorem ebSum_nil (f : String → List MonthItem) : ebSum f [] = 0 := rfl

theorem ebSum_cons (f : String → List MonthItem) (m : String) (ms : List String) :
    ebSum f (m :: ms) = expectedBalance (f m) + ebSum f ms := by
  simp [ebSum]

theorem abSum_nil (f : String → List MonthItem) : abSum f [] = 0 := rfl

theorem abSum_cons (f : String → List MonthItem) (m : String) (ms : List String) :
    abSum f (m :: ms) = actualBalance (f m) + abSum f ms := by
  simp [abSum]

theorem calcAux_length (f : String → List MonthItem) :
    ∀ (ms : List String) (ce ca : Int), (calcAux f ce ca ms).length = ms.length := by
  intro ms
  induction ms with
  | nil => intro ce ca; rfl
  | cons m rest ih => intro ce ca; simp [calcAux, ih]

theorem calcAux_getElem? (f : String → List MonthItem) :
    ∀ (ms : List String) (ce ca : Int) (k : Nat) (m : String), ms[k]? = some m →
      (calcAux f ce ca ms)[k]? = some
        { id := m
          name := formatMonthName m
          items := applyDebtFlags (ce + ebSum f (ms.take k)) (f m)
          expectedBalance := expectedBalance (f m)
          actualBalance := actualBalance (f m)
          cumulativeExpected := ce + ebSum f (ms.take (k + 1))
          cumulativeActual := ca + abSum f (ms.take (k + 1)) } := by
  intro ms
  induction ms with
  | nil => intro ce ca k m h; simp at h
  | cons m0 rest ih =>
    intro ce ca k m h
    cases k with
    | zero =>
      simp only [List.getElem?_cons_zero, Option.some.injEq] at h
      subst h
      simp [calcAux, ebSum_cons, abSum_cons, ebSum_nil, abSum_nil]
    | succ k =>
      simp only [List.getElem?_cons_succ] at h
      simp only [calcAux, List.getElem?_cons_succ]
      rw [ih (ce + expectedBalance (f m0)) (ca + actualBalance (f m0)) k m h]
      simp only [List.take_succ_cons, ebSum_cons, abSum_cons]
      simp only [add_assoc]

theorem calcAux_map_eb (f : String → List MonthItem) :
    ∀ (ms : List String) (ce ca : Int),
      (calcAux f ce ca ms).map MonthData.expectedBalance
        = ms.map (fun m => expectedBalance (f m)) := by
  intro ms
  induction ms with
  | nil => intro ce ca; rfl
  | cons m rest ih => intro ce ca; simp [calcAux, ih]

theorem calcAux_map_ab (f : String → List MonthItem) :
    ∀ (ms : List String) (ce ca : Int),
      (calcAux f ce ca ms).map MonthData.actualBalance
        = ms.map (fun m => actualBalance (f m)) := by
  intro ms
  induction ms with
  | nil => intro ce ca; rfl
  | cons m rest ih => intro ce ca; simp [calcAux, ih]

/-! ### The debt-flag walk -/

theorem applyDebtFlags_length :
    ∀ (items : List MonthItem) (b : Int), (applyDebtFlags b items).length = items.length := by
  intro items
  induction items with
  | nil => intro b; rfl
  | cons it rest ih => intro b; simp [applyDebtFlags, ih]

theorem applyDebtFlags_getElem? :
    ∀ (items : List MonthItem) (b : Int) (i : Nat) (it : MonthItem), items[i]? = some it →
      (applyDebtFlags b items)[i]? = some
        (if it.isEntry = false ∧ it.category.type = .expense
            ∧ b + deltaSum (items.take (i + 1)) < 0
         then it.setFlag true else it) := by
  intro items
  induction items with
  | nil => intro b i it h; simp at h
  | cons hd rest ih =>
    intro b i it h
    cases i with
    | zero =>
      simp only [List.getElem?_cons_zero, Option.some.injEq] at h
      subst h
      simp only [applyDebtFlags, List.getElem?_cons_zero, Option.some.injEq,
        List.take_succ_cons, List.take_zero, deltaSum_cons, deltaSum_nil]
      norm_num
    | succ i =>
      simp only [List.getElem?_cons_succ] at h
      simp only [applyDebtFlags, List.getElem?_cons_succ]
      rw [ih (b + hd.delta) i it h]
      simp only [List.take_succ_cons, deltaSum_cons]
      simp only [add_assoc]

theorem applyDebtFlags_map_delta :
    ∀ (items : List MonthItem) (b : Int),
      (applyDebtFlags b items).map MonthItem.delta = items.map MonthItem.delta := by
  intro items
  induction items with
  | nil => intro b; rfl
  | cons hd rest ih =>
    intro b
    simp only [applyDebtFlags, List.map_cons, ih]
    congr 1
    split <;> simp [setFlag_delta]

/-! ### The final sort -/

theorem isExpense_eq_not_isIncome (it : MonthItem) : it.isExpense = !it.isIncome := by
  cases h : it.category.type <;> simp [MonthItem.isIncome, MonthItem.isExpense, h]

theorem sortItems_perm (items : List MonthItem) : List.Perm (sortItems items) items := by
  have hf : items.filter MonthItem.isExpense = items.filter (fun it => !it.isIncome) :=
    List.filter_congr (fun it _ => isExpense_eq_not_isIncome it)
  rw [sortItems, hf]
  exact List.filter_append_perm MonthItem.isIncome items

theorem countP_sortItems (q : MonthItem → Bool) (items : List MonthItem) :
    (sortItems items).countP q = items.countP q :=
  (sortItems_perm items).countP_eq q

theorem mem_sortItems {it : MonthItem} {items : List MonthItem} :
    it ∈ sortItems items ↔ it ∈ items :=
  (sortItems_perm items).mem_iff

/-! ### Freshly built items carry no debt flag -/

theorem planPhaseItems_flag_false (plans : List Plan) (entries : List Entry) (m : String) :
    ∀ it ∈ planPhaseItems plans entries m, it.flag = false := by
  intro it hit
  simp only [planPhaseItems, List.mem_flatMap] at hit
  obtain ⟨p, _, hb⟩ := hit
  simp only [planBlock, List.mem_append] at hb
  rcases hb with hb | hb
  · simp only [List.mem_map] at hb
    obtain ⟨e, _, rfl⟩ := hb
    rfl
  · split at hb
    · rw [List.eq_of_mem_replicate hb]; rfl
    · simp at hb

theorem foldAdd_flag_false :
    ∀ (es : List Entry) (acc : List MonthItem) (m : String),
      (∀ it ∈ acc, it.flag = false) →
      ∀ it ∈ es.foldl (addEntryIfMissing m) acc, it.flag = false := by
  intro es
  induction es with
  | nil => intro acc m h; simpa using h
  | cons e es ih =>
    intro acc m h it hit
    refine ih (addEntryIfMissing m acc e) m ?_ it hit
    intro it2 hit2
    unfold addEntryIfMissing at hit2
    split at hit2
    · exact h it2 hit2
    · rcases List.mem_append.mp hit2 with h2 | h2
      · exact h it2 h2
      · rw [List.mem_singleton.mp h2]; rfl

theorem monthItemsFor_flag_false (plans : List Plan) (entries : List Entry) (m : String) :
    ∀ it ∈ monthItemsFor plans entries m, it.flag = false := by
  intro it hit
  have h2 : it ∈ monthItemsUnsorted plans entries m := mem_sortItems.mp hit
  exact foldAdd_flag_false _ _ _ (planPhaseItems_flag_false plans entries m) it h2

/-! ### Bridging lemmas for the projection -/

theorem buildMonthItems_mem (plans : List Plan) (entries : List Entry)
    (monthIds : List String) {m : String} (hm : m ∈ monthIds) :
    buildMonthItems plans entries monthIds m = some (monthItemsFor plans entries m) := by
  unfold buildMonthItems
  rw [if_pos (List.elem_eq_true_of_mem hm)]

theorem take_map_eb (f : String → List MonthItem) (ms : List String) (ce ca : Int) (k : Nat) :
    (((calcAux f ce ca ms).take k).map MonthData.expectedBalance).sum = ebSum f (ms.take k) := by
  rw [List.map_take, calcAux_map_eb, ← List.map_take]
  rfl

theorem take_map_ab (f : String → List MonthItem) (ms : List String) (ce ca : Int) (k : Nat) :
    (((calcAux f ce ca ms).take k).map MonthData.actualBalance).sum = abSum f (ms.take k) := by
  rw [List.map_take, calcAux_map_ab, ← List.map_take]
  rfl

theorem ebSum_congr (f g : String → List MonthItem) (ms : List String)
    (h : ∀ m ∈ ms, f m = g m) : ebSum f ms = ebSum g ms := by
  unfold ebSum
  rw [List.map_congr_left (fun m hm => by rw [h m hm])]

theorem abSum_congr (f g : String → List MonthItem) (ms : List String)
    (h : ∀ m ∈ ms, f m = g m) : abSum f ms = abSum g ms := by
  unfold abSum
  rw [List.map_congr_left (fun m hm => by rw [h m hm])]

/-- The `k`-th summary of a projection, fully described in terms of the
builder output for the `k`-th month. -/
theorem calculateBalances_getElem? (monthIds : List String) (plans : List Plan)
    (entries : List Entry) (sb : Int) (k : Nat) (hk_lt : k < monthIds.length) :
    (calculateBalances monthIds plans entries sb)[k]? = some
      { id := monthIds[k]
        name := formatMonthName monthIds[k]
        items := applyDebtFlags (sb + ebSum (monthItemsFor plans entries) (monthIds.take k))
          (monthItemsFor plans entries monthIds[k])
        expectedBalance := expectedBalance (monthItemsFor plans entries monthIds[k])
        actualBalance := actualBalance (monthItemsFor plans entries monthIds[k])
        cumulativeExpected := sb + ebSum (monthItemsFor plans entries) (monthIds.take (k + 1))
        cumulativeActual := sb + abSum (monthItemsFor plans entries) (monthIds.take (k + 1)) } := by
  have hm : monthIds[k]? = some monthIds[k] := List.getElem?_eq_getElem hk_lt
  have h2 := calcAux_getElem? (fun m => (buildMonthItems plans entries monthIds m).getD [])
    monthIds sb sb k _ hm
  have hgetD : ∀ m ∈ monthIds,
      (buildMonthItems plans entries monthIds m).getD [] = monthItemsFor plans entries m := by
    intro m hm2
    rw [buildMonthItems_mem plans entries monthIds hm2]
    rfl
  have he1 : ebSum (fun m => (buildMonthItems plans entries monthIds m).getD [])
      (monthIds.take k) = ebSum (monthItemsFor plans entries) (monthIds.take k) :=
    ebSum_congr _ _ _ (fun m hm2 => hgetD m (List.mem_of_mem_take hm2))
  have he2 : ebSum (fun m => (buildMonthItems plans entries monthIds m).getD [])
      (monthIds.take (k + 1)) = ebSum (monthItemsFor plans entries) (monthIds.take (k + 1)) :=
    ebSum_congr _ _ _ (fun m hm2 => hgetD m (List.mem_of_mem_take hm2))
  have ha2 : abSum (fun m => (buildMonthItems plans entries monthIds m).getD [])
      (monthIds.take (k + 1)) = abSum (monthItemsFor plans entries) (monthIds.take (k + 1)) :=
    abSum_congr _ _ _ (fun m hm2 => hgetD m (List.mem_of_mem_take hm2))
  have hcb : calculateBalances monthIds plans entries sb
      = calcAux (fun m => (buildMonthItems plans entries monthIds m).getD []) sb sb monthIds :=
    rfl
  rw [hcb, h2]
  simp only [he1, he2, ha2, hgetD monthIds[k] (monthIds.getElem_mem hk_lt)]

theorem calculateBalances_take_map_eb (monthIds : List String) (plans : List Plan)
    (entries : List Entry) (sb : Int) (k : Nat) :
    (((calculateBalances monthIds plans entries sb).take k).map MonthData.expectedBalance).sum
      = ebSum (monthItemsFor plans entries) (monthIds.take k) := by
  have hcb : calculateBalances monthIds plans entries sb
      = calcAux (fun m => (buildMonthItems plans entries monthIds m).getD []) sb sb monthIds :=
    rfl
  rw [hcb, take_map_eb]
  refine ebSum_congr _ _ _ (fun m hm2 => ?_)
  rw [buildMonthItems_mem plans entries monthIds (List.mem_of_mem_take hm2)]
  rfl

theorem calculateBalances_take_map_ab (monthIds : List String) (plans : List Plan)
    (entries : List Entry) (sb : Int) (k : Nat) :
    (((calculateBalances monthIds plans entries sb).take k).map MonthData.actualBalance).sum
      = abSum (monthItemsFor plans entries) (monthIds.take k) := by
  have hcb : calculateBalances monthIds plans entries sb
      = calcAux (fun m => (buildMonthItems plans entries monthIds m).getD []) sb sb monthIds :=
    rfl
  rw [hcb, take_map_ab]
  refine abSum_congr _ _ _ (fun m hm2 => ?_)
  rw [buildMonthItems_mem plans entries monthIds (List.mem_of_mem_take hm2)]
  rfl

theorem deltaSum_take_applyDebtFlags (b : Int) (base : List MonthItem) (i : Nat) :
    deltaSum ((applyDebtFlags b base).take i) = deltaSum (base.take i) := by
  simp [deltaSum, List.map_take, applyDebtFlags_map_delta]

/-- C1: the `k`-th summary (when it exists) has cumulative balances equal
to the starting balance plus the sums of the per-month balances of the
output months `0..k`. -/
theorem claim_C1_conservation (monthIds : List String) (plans : List Plan)
    (entries : List Entry) (startingBalance : Int) (k : Nat) (md : MonthData)
    (hk : (calculateBalances monthIds plans entries startingBalance)[k]? = some md) :
    md.cumulativeExpected = startingBalance
        + (((calculateBalances monthIds plans entries startingBalance).take (k + 1)).map
            MonthData.expectedBalance).sum
    ∧ md.cumulativeActual = startingBalance
        + (((calculateBalances monthIds plans entries startingBalance).take (k + 1)).map
            MonthData.actualBalance).sum := by
  have hk_lt : k < monthIds.length := by
    have h1 := (List.getElem?_eq_some_iff.mp hk).1
    have h2 : (calculateBalances monthIds plans entries startingBalance).length
        = monthIds.length := calcAux_length _ monthIds startingBalance startingBalance
    omega
  rw [calculateBalances_getElem? monthIds plans entries startingBalance k hk_lt] at hk
  have h3 := Option.some.inj hk
  subst h3
  rw [calculateBalances_take_map_eb, calculateBalances_take_map_ab]
  exact ⟨rfl, rfl⟩

theorem claim_C1_conservation_witness :
    (calculateBalances ["2025-01", "2025-02"] [pSalary] [] 0)[1]? = some c1md
    ∧ (c1md.cumulativeExpected = 0
        + (((calculateBalances ["2025-01", "2025-02"] [pSalary] [] 0).take 2).map
            MonthData.expectedBalance).sum
      ∧ c1md.cumulativeActual = 0
        + (((calculateBalances ["2025-01", "2025-02"] [pSalary] [] 0).take 2).map
            MonthData.actualBalance).sum) :=
  ⟨by decide, claim_C1_conservation ["2025-01", "2025-02"] [pSalary] [] 0 1 c1md (by decide)⟩

/-- C2: in every produced summary, an item carries `wouldCauseDebt = true`
exactly when it is an expected (non-realized) expense item whose signed
delta left the local running balance (the prior cumulative expected
balance plus the deltas of the items up to and including it) negative;
and the concrete debt scenario: starting balance 100, one month with a
single expected expense of 500 gives a flagged item and a month expected
balance of -500.  (The repetition-free window hypothesis reflects that
the source mutates shared item arrays when a month key repeats.) -/
theorem claim_C2_wouldCauseDebt :
    (∀ (monthIds : List String) (plans : List Plan) (entries : List Entry)
        (startingBalance : Int) (k i : Nat) (md : MonthData) (it : MonthItem),
        monthIds.Nodup →
        (calculateBalances monthIds plans entries startingBalance)[k]? = some md →
        md.items[i]? = some it →
        (it.flag = true ↔
          (it.isEntry = false ∧ it.category.type = .expense ∧
            startingBalance
              + (((calculateBalances monthIds plans entries startingBalance).take k).map
                  MonthData.expectedBalance).sum
              + deltaSum (md.items.take (i + 1)) < 0)))
    ∧ (calculateBalances ["2025-01"] [p500] [] 100).map MonthData.items
        = [[.expectedItem p500 "2025-01" true]]
    ∧ (calculateBalances ["2025-01"] [p500] [] 100).map MonthData.expectedBalance
        = [-500] := by
  refine ⟨?_, by decide, by decide⟩
  intro monthIds plans entries startingBalance k i md it _ hk hi
  have hk_lt : k < monthIds.length := by
    have h1 := (List.getElem?_eq_some_iff.mp hk).1
    have h2 : (calculateBalances monthIds plans entries startingBalance).length
        = monthIds.length := calcAux_length _ monthIds startingBalance startingBalance
    omega
  rw [calculateBalances_getElem? monthIds plans entries startingBalance k hk_lt] at hk
  have h3 := Option.some.inj hk
  subst h3
  simp only at hi ⊢
  rw [calculateBalances_take_map_eb]
  -- abbreviations purely for readability of the proof below
  have hi_lt : i < (monthItemsFor plans entries monthIds[k]).length := by
    have h1 := (List.getElem?_eq_some_iff.mp hi).1
    rwa [applyDebtFlags_length] at h1
  have hb : (monthItemsFor plans entries monthIds[k])[i]?
      = some (monthItemsFor plans entries monthIds[k])[i] := List.getElem?_eq_getElem hi_lt
  have h4 := applyDebtFlags_getElem? (monthItemsFor plans entries monthIds[k])
    (startingBalance + ebSum (monthItemsFor plans entries) (monthIds.take k)) i
    (monthItemsFor plans entries monthIds[k])[i] hb
  rw [hi] at h4
  have h5 := Option.some.inj h4
  have hflag : ((monthItemsFor plans entries monthIds[k])[i]).flag = false :=
    monthItemsFor_flag_false plans entries monthIds[k] _
      ((monthItemsFor plans entries monthIds[k]).getElem_mem hi_lt)
  have hds : deltaSum
        ((applyDebtFlags (startingBalance + ebSum (monthItemsFor plans entries)
            (monthIds.take k)) (monthItemsFor plans entries monthIds[k])).take (i + 1))
      = deltaSum ((monthItemsFor plans entries monthIds[k]).take (i + 1)) :=
    deltaSum_take_applyDebtFlags _ _ (i + 1)
  rw [hds, h5]
  by_cases hC : ((monthItemsFor plans entries monthIds[k])[i]).isEntry = false
      ∧ ((monthItemsFor plans entries monthIds[k])[i]).category.type = .expense
      ∧ (startingBalance + ebSum (monthItemsFor plans entries) (monthIds.take k))
          + deltaSum ((monthItemsFor plans entries monthIds[k]).take (i + 1)) < 0
  · rw [if_pos hC]
    constructor
    · intro _
      exact ⟨by rw [setFlag_isEntry]; exact hC.1, by rw [setFlag_category]; exact hC.2.1,
        hC.2.2⟩
    · intro _
      rw [setFlag_flag]
  · rw [if_neg hC, hflag]
    exact ⟨fun habs => absurd habs (by decide), fun hR => (hC hR).elim⟩

theorem claim_C2_wouldCauseDebt_witness :
    ((MonthItem.expectedItem p500 "2025-01" true).flag = true ↔
      ((MonthItem.expectedItem p500 "2025-01" true).isEntry = false
        ∧ (MonthItem.expectedItem p500 "2025-01" true).category.type = .expense
        ∧ (100 : Int)
            + (((calculateBalances ["2025-01"] [p500] [] 100).take 0).map
                MonthData.expectedBalance).sum
            + deltaSum (c2md.items.take 1) < 0)) :=
  claim_C2_wouldCauseDebt.1 ["2025-01"] [p500] [] 100 0 0 c2md
    (.expectedItem p500 "2025-01" true) (by decide) (by decide) (by decide)

/-! ### Plan activation (claim C4) -/

theorem charListLt_irrefl : ∀ l : List Char, charListLt l l = false := by
  intro l
  induction l with
  | nil => rfl
  | cons a as ih => simp [charListLt, lt_irrefl, ih]

theorem strLt_irrefl (s : String) : strLt s s = false := charListLt_irrefl s.data

/-- C4: a completed plan is never active; a non-completed one-time plan
(whose end month, when present, is not before its start month) is active
exactly in its start month. -/
theorem claim_C4_oneTime_exclusivity (p : Plan) (m : String) :
    (p.status = .completed → isPlanActiveInMonth p m = false)
    ∧ (p.frequency = .oneTime → p.status ≠ .completed →
        (∀ em, p.end_month = some em → strLt em p.start_month = false) →
        (isPlanActiveInMonth p m = true ↔ m = p.start_month)) := by
  constructor
  · intro hc
    unfold isPlanActiveInMonth
    rw [if_pos hc]
  · intro hf hs hend
    unfold isPlanActiveInMonth
    rw [if_neg hs]
    constructor
    · intro hact
      by_contra hne
      split_ifs at hact with h1 h2 h3
      exact h3 ⟨hf, hne⟩
    · intro heq
      subst heq
      have h1 : strLt p.start_month p.start_month = false := strLt_irrefl _
      have h2 : (match p.end_month with
          | some em => strGt p.start_month em
          | none => false) = false := by
        cases hem : p.end_month with
        | none => rfl
        | some em => exact hend em hem
      simp [h1, h2]

theorem claim_C4_oneTime_exclusivity_witness :
    isPlanActiveInMonth pOneTime "2025-03" = true
    ∧ isPlanActiveInMonth pOneTime "2025-05" = false := by
  constructor
  · exact ((claim_C4_oneTime_exclusivity pOneTime "2025-03").2 (by decide) (by decide)
      (fun em h => by
        have h2 : some "2025-06" = some em := h
        cases Option.some.inj h2
        decide)).mpr (by decide)
  · decide

/-! ### Affordability query (claim C9) -/

/-- C9: the affordability query returns the id of the first summary, in
the given order, whose cumulative expected balance covers the amount, and
nothing when no summary qualifies; with the concrete [-100, 50, 300]
examples. -/
theorem claim_C9_affordability :
    (∀ (amount : Int) (months : List MonthData),
      (findEarliestAffordableMonth amount months = none ↔
        ∀ md ∈ months, md.cumulativeExpected < amount)
      ∧ (∀ k, findEarliestAffordableMonth amount months = some k →
          ∃ i, ∃ hi : i < months.length,
            k = (months.get ⟨i, hi⟩).id
            ∧ amount ≤ (months.get ⟨i, hi⟩).cumulativeExpected
            ∧ ∀ j, ∀ hj : j < months.length, j < i →
                (months.get ⟨j, hj⟩).cumulativeExpected < amount))
    ∧ findEarliestAffordableMonth 200
        [mkSummary "A" (-100), mkSummary "B" 50, mkSummary "C" 300] = some "C"
    ∧ findEarliestAffordableMonth 1000
        [mkSummary "A" (-100), mkSummary "B" 50, mkSummary "C" 300] = none := by
  refine ⟨?_, by decide, by decide⟩
  intro amount months
  induction months with
  | nil =>
    refine ⟨by simp [findEarliestAffordableMonth], ?_⟩
    intro k hk
    simp [findEarliestAffordableMonth] at hk
  | cons md rest ih =>
    constructor
    · unfold findEarliestAffordableMonth
      by_cases h : md.cumulativeExpected ≥ amount
      · rw [if_pos h]
        constructor
        · intro habs; exact absurd habs (by simp)
        · intro hall
          exact absurd (hall md (List.mem_cons_self md rest)) (by omega)
      · rw [if_neg h]
        rw [ih.1]
        constructor
        · intro hrest md2 hmd2
          rcases List.mem_cons.mp hmd2 with rfl | h2
          · omega
          · exact hrest md2 h2
        · intro hall md2 h2
          exact hall md2 (List.mem_cons_of_mem md h2)
    · intro k hk
      unfold findEarliestAffordableMonth at hk
      by_cases h : md.cumulativeExpected ≥ amount
      · rw [if_pos h] at hk
        refine ⟨0, by simp, (Option.some.inj hk).symm, h, ?_⟩
        intro j hj hj0
        omega
      · rw [if_neg h] at hk
        obtain ⟨i, hi, hid, hge, hfirst⟩ := ih.2 k hk
        refine ⟨i + 1, by simpa using Nat.succ_lt_succ hi, hid, hge, ?_⟩
        intro j hj hji
        cases j with
        | zero => simpa using (by omega : md.cumulativeExpected < amount)
        | succ j2 =>
          exact hfirst j2 (by simpa using Nat.lt_of_succ_lt_succ hj)
            (Nat.lt_of_succ_lt_succ hji)

theorem claim_C9_affordability_witness :
    findEarliestAffordableMonth 1000
      [mkSummary "A" (-100), mkSummary "B" 50, mkSummary "C" 300] = none :=
  (claim_C9_affordability.1 1000
    [mkSummary "A" (-100), mkSummary "B" 50, mkSummary "C" 300]).1.mpr (by decide)

/-! ### Counting items in the builder output -/

theorem any_iff_countP_pos (l : List MonthItem) (p : MonthItem → Bool) :
    l.any p = true ↔ 0 < l.countP p := by
  rw [List.any_eq_true]
  exact List.countP_pos_iff.symm

theorem countP_congr_fun {α : Type} (l : List α) (p q : α → Bool) (h : ∀ a, p a = q a) :
    l.countP p = l.countP q := by
  induction l with
  | nil => rfl
  | cons a as ih => rw [List.countP_cons, List.countP_cons, ih, h a]

theorem countP_replicate_item (n : Nat) (a : MonthItem) (q : MonthItem → Bool) :
    (List.replicate n a).countP q = if q a then n else 0 := by
  induction n with
  | zero => simp
  | succ k ih =>
    rw [List.replicate_succ, List.countP_cons, ih]
    by_cases h : q a <;> simp [h]

theorem foldAdd_countP_id :
    ∀ (es : List Entry) (acc : List MonthItem) (m x : String),
      (es.foldl (addEntryIfMissing m) acc).countP (fun it => it.hasEntryId x)
        = if 0 < acc.countP (fun it => it.hasEntryId x)
          then acc.countP (fun it => it.hasEntryId x)
          else if es.any (fun e2 => e2.id == x) then 1 else 0 := by
  intro es
  induction es with
  | nil =>
    intro acc m x
    simp only [List.foldl_nil, List.any_nil]
    rcases Nat.eq_zero_or_pos (acc.countP fun it => it.hasEntryId x) with h | h
    · rw [h]; simp
    · rw [if_pos h]
  | cons e es ih =>
    intro acc m x
    simp only [List.foldl_cons, List.any_cons]
    by_cases hg : acc.any (fun it => it.hasEntryId e.id) = true
    · have hstep : addEntryIfMissing m acc e = acc := by
        unfold addEntryIfMissing
        rw [if_pos hg]
      rw [hstep, ih]
      by_cases hx : e.id = x
      · subst hx
        have hpos : 0 < acc.countP (fun it => it.hasEntryId e.id) :=
          (any_iff_countP_pos acc _).mp hg
        rw [if_pos hpos, if_pos hpos]
      · have hbe : (e.id == x) = false := beq_false_of_ne hx
        simp only [hbe, Bool.false_or]
    · have hstep : addEntryIfMissing m acc e = acc ++ [realizedOf e m] := by
        unfold addEntryIfMissing
        rw [if_neg hg]
      have hsingle : [realizedOf e m].countP (fun it => it.hasEntryId x)
          = if e.id == x then 1 else 0 := List.countP_singleton _ _
      rw [hstep, ih]
      by_cases hx : e.id = x
      · subst hx
        have h0 : acc.countP (fun it => it.hasEntryId e.id) = 0 := by
          rcases Nat.eq_zero_or_pos (acc.countP fun it => it.hasEntryId e.id) with h | h
          · exact h
          · exact absurd ((any_iff_countP_pos acc _).mpr h) hg
        rw [List.countP_append, hsingle, h0]
        simp
      · have hbe : (e.id == x) = false := beq_false_of_ne hx
        rw [List.countP_append, hsingle]
        simp only [hbe, Bool.false_or, if_false, Bool.false_eq_true, Nat.add_zero]

theorem foldAdd_countP_preserved :
    ∀ (es : List Entry) (acc : List MonthItem) (m x : String) (q : MonthItem → Bool),
      (∀ it, q it = true → it.hasEntryId x = true) →
      0 < acc.countP (fun it => it.hasEntryId x) →
      (es.foldl (addEntryIfMissing m) acc).countP q = acc.countP q := by
  intro es
  induction es with
  | nil => intro acc m x q _ _; rfl
  | cons e es ih =>
    intro acc m x q himp hpos
    simp only [List.foldl_cons]
    by_cases hg : acc.any (fun it => it.hasEntryId e.id) = true
    · have hstep : addEntryIfMissing m acc e = acc := by
        unfold addEntryIfMissing
        rw [if_pos hg]
      rw [hstep]
      exact ih acc m x q himp hpos
    · have hstep : addEntryIfMissing m acc e = acc ++ [realizedOf e m] := by
        unfold addEntryIfMissing
        rw [if_neg hg]
      rw [hstep]
      have hne : e.id ≠ x := by
        intro h
        subst h
        exact hg ((any_iff_countP_pos acc _).mpr hpos)
      have hq : q (realizedOf e m) = false := by
        by_contra h
        have h1 : q (realizedOf e m) = true := by
          revert h
          cases q (realizedOf e m) <;> simp
        have h2 := himp _ h1
        have h3 : (e.id == x) = true := h2
        exact hne (by simpa using h3)
      have hacc : (acc ++ [realizedOf e m]).countP q = acc.countP q := by
        rw [List.countP_append, List.countP_singleton, if_neg (by simp [hq]),
          Nat.add_zero]
      have hacc2 : 0 < (acc ++ [realizedOf e m]).countP (fun it => it.hasEntryId x) := by
        rw [List.countP_append]
        omega
      rw [ih _ m x q himp hacc2, hacc]

theorem foldAdd_countP_realizedfree :
    ∀ (es : List Entry) (acc : List MonthItem) (m : String) (q : MonthItem → Bool),
      (∀ e2 m2, q (realizedOf e2 m2) = false) →
      (es.foldl (addEntryIfMissing m) acc).countP q = acc.countP q := by
  intro es
  induction es with
  | nil => intro acc m q _; rfl
  | cons e es ih =>
    intro acc m q hq
    simp only [List.foldl_cons]
    by_cases hg : acc.any (fun it => it.hasEntryId e.id) = true
    · have hstep : addEntryIfMissing m acc e = acc := by
        unfold addEntryIfMissing
        rw [if_pos hg]
      rw [hstep]
      exact ih acc m q hq
    · have hstep : addEntryIfMissing m acc e = acc ++ [realizedOf e m] := by
        unfold addEntryIfMissing
        rw [if_neg hg]
      rw [hstep, ih _ m q hq, List.countP_append, List.countP_singleton,
        if_neg (by simp [hq e m]), Nat.add_zero]

theorem planPhaseItems_countP (plans : List Plan) (entries : List Entry) (m : String)
    (q : MonthItem → Bool) :
    (planPhaseItems plans entries m).countP q
      = (plans.map (fun p2 => (planBlock entries m p2).countP q)).sum := by
  induction plans with
  | nil => rfl
  | cons p2 ps ih =>
    simp only [planPhaseItems] at ih ⊢
    rw [List.flatMap_cons, List.countP_append, ih, List.map_cons, List.sum_cons]

theorem planBlock_countP_of_entries (entries : List Entry) (m : String) (p2 : Plan)
    (q : MonthItem → Bool) (hq : ∀ p3 m3, q (expectedOf p3 m3) = false) :
    (planBlock entries m p2).countP q
      = (entriesByPlanAndMonth entries (mkKey p2.id m)).countP
          (fun e2 => q (realizedOf e2 m)) := by
  unfold planBlock
  rw [List.countP_append, List.countP_map]
  have h2 : (if isPlanActiveInMonth p2 m then
      List.replicate (expectedCount p2.frequency
        - (entriesByPlanAndMonth entries (mkKey p2.id m)).length) (expectedOf p2 m)
    else []).countP q = 0 := by
    split
    · rw [countP_replicate_item, if_neg (by simp [hq p2 m])]
    · rfl
  rw [h2, Nat.add_zero]
  rfl

theorem countP_id_nodup (entries : List Entry) (e : Entry)
    (hnd : (entries.map Entry.id).Nodup) (he : e ∈ entries) (q : Entry → Bool) :
    entries.countP (fun e2 => (e2.id == e.id) && q e2) = if q e then 1 else 0 := by
  induction entries with
  | nil => cases he
  | cons a es ih =>
    rw [List.countP_cons]
    simp only [List.map_cons, List.nodup_cons] at hnd
    rcases List.mem_cons.mp he with rfl | he2
    · have h0 : es.countP (fun e2 => (e2.id == e.id) && q e2) = 0 := by
        apply List.countP_eq_zero.mpr
        intro e2 he2
        simp only [Bool.and_eq_true, beq_iff_eq, not_and]
        intro hid _
        exact hnd.1 (hid ▸ List.mem_map_of_mem Entry.id he2)
      rw [h0, Nat.zero_add]
      simp
    · have hne : a.id ≠ e.id := by
        intro h
        apply hnd.1
        rw [h]
        exact List.mem_map_of_mem Entry.id he2
      rw [ih hnd.2 he2]
      have : ((a.id == e.id) && q a) = false := by
        rw [beq_false_of_ne hne, Bool.false_and]
      rw [this]
      simp

theorem sum_map_if_id (plans : List Plan) (pid : String)
    (hnd : (plans.map Plan.id).Nodup) :
    ((plans.map (fun p2 => if p2.id = pid then 1 else 0)).sum : Nat)
      = if plans.any (fun p2 => p2.id == pid) then 1 else 0 := by
  induction plans with
  | nil => simp
  | cons a ps ih =>
    simp only [List.map_cons, List.sum_cons, List.any_cons]
    simp only [List.map_cons, List.nodup_cons] at hnd
    by_cases h : a.id = pid
    · have hzero : ((ps.map (fun p2 => if p2.id = pid then 1 else 0)).sum : Nat) = 0 := by
        apply List.sum_eq_zero
        intro x hx
        simp only [List.mem_map] at hx
        obtain ⟨p2, hp2, rfl⟩ := hx
        rw [if_neg]
        intro hid
        apply hnd.1
        have h2 : p2.id ∈ List.map Plan.id ps := List.mem_map_of_mem Plan.id hp2
        rwa [hid, ← h] at h2
      rw [if_pos h, hzero]
      have hbe : (a.id == pid) = true := by simp [h]
      simp only [hbe, Bool.true_or]
      simp
    · have hbe : (a.id == pid) = false := beq_false_of_ne h
      rw [if_neg h, ih hnd.2]
      simp only [hbe, Bool.false_or, Nat.zero_add]

theorem sum_map_if_eq_const (l : List Plan) (p : Plan) (c : Nat) :
    ((l.map (fun p2 => if p2 = p then c else 0)).sum : Nat) = c * l.count p := by
  induction l with
  | nil => simp
  | cons a ps ih =>
    rw [List.map_cons, List.sum_cons, ih, List.count_cons]
    by_cases h : a = p
    · rw [if_pos h, if_pos (by simp [h])]
      ring
    · rw [if_neg h, if_neg (by simp [h])]
      ring

/-! ### Claim C5: no referential validation in the builder -/

/-- C5 counterexample: with an empty plan list supplied, the entry
`eGhost` (whose `plan_id` is "ghost") references no supplied plan, yet the
builder neither raises nor skips it: it returns normally and its month
list contains the entry as a realized item.  (No error value or exception
path exists anywhere in the builder.) -/
theorem claim_C5_counterexample :
    buildMonthItems [] [eGhost] ["2025-01"] "2025-01"
      = some [MonthItem.entryItem eGhost "2025-01" false] := by
  decide

/-- C5 amended: the builder never raises and never drops a record: every
entry recorded into a requested month appears in that month's list as a
realized item (wrapping the plan object embedded in the entry), whether or
not its `plan_id` matches a supplied plan; plans carry their category
embedded, so an unknown-category condition cannot arise. -/
theorem claim_C5_no_validation (plans : List Plan) (entries : List Entry)
    (monthIds : List String) (m : String) (e : Entry)
    (he : e ∈ entries) (hm : e.month_year = m) (hmem : m ∈ monthIds) :
    ∃ L, buildMonthItems plans entries monthIds m = some L
      ∧ ∃ it ∈ L, it.hasEntryId e.id = true := by
  refine ⟨monthItemsFor plans entries m, buildMonthItems_mem plans entries monthIds hmem, ?_⟩
  have hpos : 0 < (monthItemsFor plans entries m).countP (fun it => it.hasEntryId e.id) := by
    unfold monthItemsFor
    rw [countP_sortItems]
    unfold monthItemsUnsorted withMonthEntries
    rw [foldAdd_countP_id]
    have hany : (entries.filter (fun e2 => e2.month_year == m)).any
        (fun e2 => e2.id == e.id) = true := by
      rw [List.any_eq_true]
      exact ⟨e, List.mem_filter.mpr ⟨he, by simp [hm]⟩, by simp⟩
    rw [hany]
    split
    · assumption
    · norm_num
  obtain ⟨it, hit, hq⟩ := List.countP_pos_iff.mp hpos
  exact ⟨it, hit, hq⟩

theorem claim_C5_no_validation_witness :
    ∃ L, buildMonthItems [] [eGhost] ["2025-01"] "2025-01" = some L
      ∧ ∃ it ∈ L, it.hasEntryId eGhost.id = true :=
  claim_C5_no_validation [] [eGhost] ["2025-01"] "2025-01" eGhost
    (by decide) (by decide) (by decide)

/-! ### Claim C10: every month entry appears exactly once -/

/-- C10: when entry ids and plan ids are unique (the data-model invariant),
an entry recorded into a requested month `m` appears exactly once, by
entry id, in the builder's list for `m` — it is neither dropped nor
emitted twice, whatever its plan's state or presence. -/
theorem claim_C10_entry_exactly_once (plans : List Plan) (entries : List Entry)
    (monthIds : List String) (m : String) (e : Entry)
    (hndE : (entries.map Entry.id).Nodup) (hndP : (plans.map Plan.id).Nodup)
    (he : e ∈ entries) (hm : e.month_year = m) (hmem : m ∈ monthIds) :
    ∃ L, buildMonthItems plans entries monthIds m = some L
      ∧ L.countP (fun it => it.hasEntryId e.id) = 1 := by
  refine ⟨_, buildMonthItems_mem plans entries monthIds hmem, ?_⟩
  unfold monthItemsFor
  rw [countP_sortItems]
  unfold monthItemsUnsorted withMonthEntries
  rw [foldAdd_countP_id]
  have hbase : (planPhaseItems plans entries m).countP (fun it => it.hasEntryId e.id)
      = if plans.any (fun p2 => p2.id == e.plan_id) then 1 else 0 := by
    rw [planPhaseItems_countP]
    have hblock : ∀ p2 ∈ plans, (planBlock entries m p2).countP (fun it => it.hasEntryId e.id)
        = if p2.id = e.plan_id then 1 else 0 := by
      intro p2 _
      rw [planBlock_countP_of_entries entries m p2 _ (fun p3 m3 => rfl)]
      rw [entriesByPlanAndMonth_eq_filter, List.countP_filter]
      refine Eq.trans (countP_congr_fun entries _
        (fun e2 => (e2.id == e.id)
          && (mkKey e2.plan_id e2.month_year == mkKey p2.id m)) (fun a => rfl)) ?_
      rw [countP_id_nodup entries e hndE he
        (fun e2 => mkKey e2.plan_id e2.month_year == mkKey p2.id m)]
      by_cases hid : p2.id = e.plan_id
      · rw [if_pos hid, if_pos]
        rw [hm, hid]
        simp
      · rw [if_neg hid, if_neg]
        simp only [beq_iff_eq, hm]
        intro hk
        exact hid (mkKey_right_cancel.mp hk).symm
    rw [List.map_eq_map_iff.mpr hblock]
    exact sum_map_if_id plans e.plan_id hndP
  rw [hbase]
  by_cases hp : plans.any (fun p2 => p2.id == e.plan_id) = true
  · rw [if_pos hp]
    norm_num
  · rw [if_neg hp]
    have hany : (entries.filter (fun e2 => e2.month_year == m)).any
        (fun e2 => e2.id == e.id) = true := by
      rw [List.any_eq_true]
      exact ⟨e, List.mem_filter.mpr ⟨he, by simp [hm]⟩, by simp⟩
    rw [hany]
    norm_num

theorem claim_C10_entry_exactly_once_witness :
    ∃ L, buildMonthItems [] [eGhost] ["2025-01"] "2025-01" = some L
      ∧ L.countP (fun it => it.hasEntryId eGhost.id) = 1 :=
  claim_C10_entry_exactly_once [] [eGhost] ["2025-01"] "2025-01" eGhost
    (by decide) (by decide) (by decide) (by decide) (by decide)

/-! ### Claims C3 and C8: expected-occurrence counting -/

theorem planBlock_countP_expected_ne (entries : List Entry) (m : String) (p p2 : Plan)
    (hq : p2 ≠ p) :
    (planBlock entries m p2).countP (isExpectedOfPlan p) = 0 := by
  apply List.countP_eq_zero.mpr
  intro it hit
  unfold planBlock at hit
  rcases List.mem_append.mp hit with h2 | h2
  · simp only [List.mem_map] at h2
    obtain ⟨e2, _, rfl⟩ := h2
    simp [isExpectedOfPlan, realizedOf]
  · split at h2
    · rw [List.eq_of_mem_replicate h2]
      simp [isExpectedOfPlan, expectedOf, beq_false_of_ne hq]
    · simp at h2

/-- C3: for a plan with exactly one fulfilling entry `e` in month `m`
(unique plan ids assumed, the data-model invariant), the builder's list
for `m` has exactly one realized item wrapping `e`, and its expected items
for that plan number `expectedCount − 1` — one per still-unfulfilled
occurrence (zero for a one-time or monthly plan), so the fulfilled
occurrence is never also emitted as an expected item. -/
theorem claim_C3_entry_plan_dedup (plans : List Plan) (entries : List Entry)
    (monthIds : List String) (m : String) (e : Entry) (p : Plan)
    (hp1 : plans.count p = 1)
    (hpid : ∀ q ∈ plans, q.id = p.id → q = p)
    (hfe : entries.filter
      (fun e2 => mkKey e2.plan_id e2.month_year == mkKey p.id m) = [e])
    (hmem : m ∈ monthIds) :
    ∃ L, buildMonthItems plans entries monthIds m = some L
      ∧ L.countP (isRealizedEntry e) = 1
      ∧ L.countP (isExpectedOfPlan p)
          = (if isPlanActiveInMonth p m then expectedCount p.frequency - 1 else 0) := by
  refine ⟨_, buildMonthItems_mem plans entries monthIds hmem, ?_, ?_⟩
  · -- realized item count
    unfold monthItemsFor
    rw [countP_sortItems]
    unfold monthItemsUnsorted withMonthEntries
    have hbase : (planPhaseItems plans entries m).countP (isRealizedEntry e) = 1 := by
      rw [planPhaseItems_countP]
      have hblock : ∀ p2 ∈ plans, (planBlock entries m p2).countP (isRealizedEntry e)
          = if p2 = p then 1 else 0 := by
        intro p2 hp2mem
        rw [planBlock_countP_of_entries entries m p2 _ (fun p3 m3 => rfl)]
        rw [entriesByPlanAndMonth_eq_filter]
        by_cases hq : p2 = p
        · subst hq
          rw [hfe, List.countP_singleton, if_pos (by simp [isRealizedEntry, realizedOf]),
            if_pos rfl]
        · rw [if_neg hq]
          apply List.countP_eq_zero.mpr
          intro e2 he2
          simp only [List.mem_filter] at he2
          intro habs
          have heq : e2 = e := by simpa [isRealizedEntry, realizedOf] using habs
          subst heq
          have hkp : (mkKey e2.plan_id e2.month_year == mkKey p.id m) = true := by
            have hmem2 : e2 ∈ entries.filter
                (fun e3 => mkKey e3.plan_id e3.month_year == mkKey p.id m) := by
              rw [hfe]
              exact List.mem_singleton.mpr rfl
            exact (List.mem_filter.mp hmem2).2
          have hkk : mkKey p.id m = mkKey p2.id m := by
            have h1 : mkKey e2.plan_id e2.month_year = mkKey p.id m := by simpa using hkp
            have h2 : mkKey e2.plan_id e2.month_year = mkKey p2.id m := by simpa using he2.2
            rw [← h1, h2]
          exact hq (hpid p2 hp2mem (mkKey_right_cancel.mp hkk).symm)
      rw [List.map_eq_map_iff.mpr hblock, sum_map_if_eq_const, hp1, Nat.mul_one]
    rw [foldAdd_countP_preserved _ _ m e.id (isRealizedEntry e), hbase]
    · intro it hq
      cases it with
      | entryItem e2 m2 b =>
        have heq : e2 = e := by simpa [isRealizedEntry] using hq
        subst heq
        simp [MonthItem.hasEntryId]
      | expectedItem p2 m2 b =>
        simp [isRealizedEntry] at hq
    · have h1 : (planPhaseItems plans entries m).countP (isRealizedEntry e)
          ≤ (planPhaseItems plans entries m).countP (fun it => it.hasEntryId e.id) := by
        apply List.countP_mono_left
        intro it _ hq
        cases it with
        | entryItem e2 m2 b =>
          have heq : e2 = e := by simpa [isRealizedEntry] using hq
          subst heq
          simp [MonthItem.hasEntryId]
        | expectedItem p2 m2 b =>
          simp [isRealizedEntry] at hq
      omega
  · -- expected item count
    unfold monthItemsFor
    rw [countP_sortItems]
    unfold monthItemsUnsorted withMonthEntries
    rw [foldAdd_countP_realizedfree _ _ m (isExpectedOfPlan p) (fun e2 m2 => rfl)]
    rw [planPhaseItems_countP]
    have hblock : ∀ p2 ∈ plans, (planBlock entries m p2).countP (isExpectedOfPlan p)
        = if p2 = p
          then (if isPlanActiveInMonth p m then expectedCount p.frequency - 1 else 0)
          else 0 := by
      intro p2 _
      by_cases hq : p2 = p
      · subst hq
        rw [if_pos rfl]
        unfold planBlock
        rw [entriesByPlanAndMonth_eq_filter, hfe, List.countP_append]
        have hreal : ([e].map (realizedOf · m)).countP (isExpectedOfPlan p2) = 0 := by
          simp [isExpectedOfPlan, realizedOf]
        rw [hreal, Nat.zero_add]
        split
        · rw [countP_replicate_item, if_pos (by simp [isExpectedOfPlan, expectedOf])]
          rfl
        · rfl
      · rw [if_neg hq]
        exact planBlock_countP_expected_ne entries m p p2 hq
    rw [List.map_eq_map_iff.mpr hblock, sum_map_if_eq_const, hp1, Nat.mul_one]

theorem claim_C3_entry_plan_dedup_witness :
    ∃ L, buildMonthItems [pSalary] [eSalaryJan] ["2025-01"] "2025-01" = some L
      ∧ L.countP (isRealizedEntry eSalaryJan) = 1
      ∧ L.countP (isExpectedOfPlan pSalary)
          = (if isPlanActiveInMonth pSalary "2025-01"
             then expectedCount pSalary.frequency - 1 else 0) :=
  claim_C3_entry_plan_dedup [pSalary] [eSalaryJan] ["2025-01"] "2025-01" eSalaryJan pSalary
    (by decide) (by decide) (by decide) (by decide)

/-- C8 counterexample: an active weekly plan with no fulfilling entries
yields four expected items for its month, not one. -/
theorem claim_C8_counterexample :
    buildMonthItems [pWeekly] [] ["2025-01"] "2025-01"
      = some (List.replicate 4 (MonthItem.expectedItem pWeekly "2025-01" false))
    ∧ (4 : Nat) ≠ 1 :=
  ⟨by decide, by decide⟩

/-- C8 amended: for a plan active in month `m` with no fulfilling entries,
the builder emits `expectedCount` expected items, where `expectedCount` is
1 for one-time and monthly plans, 2 for biweekly and 4 for weekly — not 1
regardless of frequency. -/
theorem claim_C8_expected_expansion (plans : List Plan) (entries : List Entry)
    (monthIds : List String) (m : String) (p : Plan)
    (hp1 : plans.count p = 1)
    (hnone : ∀ e2 ∈ entries, (mkKey e2.plan_id e2.month_year == mkKey p.id m) = false)
    (hact : isPlanActiveInMonth p m = true)
    (hmem : m ∈ monthIds) :
    ∃ L, buildMonthItems plans entries monthIds m = some L
      ∧ L.countP (isExpectedOfPlan p) = expectedCount p.frequency
      ∧ expectedCount .oneTime = 1 ∧ expectedCount .monthly = 1
      ∧ expectedCount .biweekly = 2 ∧ expectedCount .weekly = 4 := by
  refine ⟨_, buildMonthItems_mem plans entries monthIds hmem, ?_, rfl, rfl, rfl, rfl⟩
  unfold monthItemsFor
  rw [countP_sortItems]
  unfold monthItemsUnsorted withMonthEntries
  rw [foldAdd_countP_realizedfree _ _ m (isExpectedOfPlan p) (fun e2 m2 => rfl)]
  rw [planPhaseItems_countP]
  have hblock : ∀ p2 ∈ plans, (planBlock entries m p2).countP (isExpectedOfPlan p)
      = if p2 = p then expectedCount p.frequency else 0 := by
    intro p2 _
    by_cases hq : p2 = p
    · subst hq
      rw [if_pos rfl]
      unfold planBlock
      have hfe : entries.filter
          (fun e2 => mkKey e2.plan_id e2.month_year == mkKey p2.id m) = [] := by
        apply List.filter_eq_nil_iff.mpr
        intro e2 he2
        simp [hnone e2 he2]
      rw [entriesByPlanAndMonth_eq_filter, hfe]
      rw [if_pos hact]
      simp only [List.map_nil, List.length_nil, Nat.sub_zero, List.nil_append]
      rw [countP_replicate_item, if_pos (by simp [isExpectedOfPlan, expectedOf])]
    · rw [if_neg hq]
      exact planBlock_countP_expected_ne entries m p p2 hq
  rw [List.map_eq_map_iff.mpr hblock, sum_map_if_eq_const, hp1, Nat.mul_one]

theorem claim_C8_expected_expansion_witness :
    ∃ L, buildMonthItems [pWeekly] [] ["2025-01"] "2025-01" = some L
      ∧ L.countP (isExpectedOfPlan pWeekly) = expectedCount pWeekly.frequency
      ∧ expectedCount .oneTime = 1 ∧ expectedCount .monthly = 1
      ∧ expectedCount .biweekly = 2 ∧ expectedCount .weekly = 4 :=
  claim_C8_expected_expansion [pWeekly] [] ["2025-01"] "2025-01" pWeekly
    (by decide) (by decide) (by decide) (by decide)

/-! ### Claim C7: income items precede expense items, stably -/

theorem sortItems_income_front (items : List MonthItem) (i j : Nat)
    (hi : i < (sortItems items).length) (hj : j < (sortItems items).length)
    (hij : i < j) (hjinc : ((sortItems items).get ⟨j, hj⟩).isIncome = true) :
    ((sortItems items).get ⟨i, hi⟩).isIncome = true := by
  by_cases hjA : j < (items.filter MonthItem.isIncome).length
  · have hiA : i < (items.filter MonthItem.isIncome).length := by omega
    have h1 : (sortItems items).get ⟨i, hi⟩
        = (items.filter MonthItem.isIncome).get ⟨i, hiA⟩ := by
      show (items.filter MonthItem.isIncome ++ items.filter MonthItem.isExpense)[i] = _
      exact List.getElem_append_left hiA
    rw [h1]
    exact (List.mem_filter.mp (List.getElem_mem hiA)).2
  · exfalso
    have hge : (items.filter MonthItem.isIncome).length ≤ j := by omega
    have hjB : j - (items.filter MonthItem.isIncome).length
        < (items.filter MonthItem.isExpense).length := by
      have hlen : (sortItems items).length = (items.filter MonthItem.isIncome).length
          + (items.filter MonthItem.isExpense).length := by
        simp [sortItems]
      omega
    have h1 : (sortItems items).get ⟨j, hj⟩
        = (items.filter MonthItem.isExpense).get
            ⟨j - (items.filter MonthItem.isIncome).length, hjB⟩ := by
      show (items.filter MonthItem.isIncome ++ items.filter MonthItem.isExpense)[j] = _
      exact List.getElem_append_right hge
    rw [h1] at hjinc
    have hx := (List.mem_filter.mp (List.getElem_mem hjB)).2
    rw [isExpense_eq_not_isIncome] at hx
    rw [List.get_eq_getElem] at hjinc
    rw [hjinc] at hx
    exact absurd hx (by decide)

theorem sortItems_filter_income (items : List MonthItem) :
    (sortItems items).filter MonthItem.isIncome = items.filter MonthItem.isIncome := by
  rw [sortItems, List.filter_append]
  have h1 : (items.filter MonthItem.isIncome).filter MonthItem.isIncome
      = items.filter MonthItem.isIncome :=
    List.filter_eq_self.mpr (fun a ha => (List.mem_filter.mp ha).2)
  have h2 : (items.filter MonthItem.isExpense).filter MonthItem.isIncome = [] := by
    apply List.filter_eq_nil_iff.mpr
    intro a ha
    have hx := (List.mem_filter.mp ha).2
    rw [isExpense_eq_not_isIncome] at hx
    simp only [Bool.not_eq_true'] at hx
    simp [hx]
  rw [h1, h2, List.append_nil]

theorem sortItems_filter_expense (items : List MonthItem) :
    (sortItems items).filter MonthItem.isExpense = items.filter MonthItem.isExpense := by
  rw [sortItems, List.filter_append]
  have h1 : (items.filter MonthItem.isIncome).filter MonthItem.isExpense = [] := by
    apply List.filter_eq_nil_iff.mpr
    intro a ha
    have hx := (List.mem_filter.mp ha).2
    rw [isExpense_eq_not_isIncome]
    simp [hx]
  have h2 : (items.filter MonthItem.isExpense).filter MonthItem.isExpense
      = items.filter MonthItem.isExpense :=
    List.filter_eq_self.mpr (fun a ha => (List.mem_filter.mp ha).2)
  rw [h1, h2, List.nil_append]

/-- C7: in every built month list, all income-category items precede all
expense-category items (an income item never follows an expense item),
and within each category the items are exactly the emitted ones in their
emission order (the filtered subsequences agree with the pre-sort list). -/
theorem claim_C7_income_precedes_expense (plans : List Plan) (entries : List Entry)
    (monthIds : List String) (m : String) (hmem : m ∈ monthIds) :
    ∃ L, buildMonthItems plans entries monthIds m = some L
      ∧ (∀ i j, ∀ hi : i < L.length, ∀ hj : j < L.length, i < j →
          (L.get ⟨j, hj⟩).isIncome = true → (L.get ⟨i, hi⟩).isIncome = true)
      ∧ L.filter MonthItem.isIncome
          = (monthItemsUnsorted plans entries m).filter MonthItem.isIncome
      ∧ L.filter MonthItem.isExpense
          = (monthItemsUnsorted plans entries m).filter MonthItem.isExpense :=
  ⟨monthItemsFor plans entries m, buildMonthItems_mem plans entries monthIds hmem,
    fun i j hi hj hij hjinc => sortItems_income_front _ i j hi hj hij hjinc,
    sortItems_filter_income _, sortItems_filter_expense _⟩

theorem claim_C7_income_precedes_expense_witness :
    ∃ L, buildMonthItems [pSalary, p500] [] ["2025-01"] "2025-01" = some L
      ∧ (∀ i j, ∀ hi : i < L.length, ∀ hj : j < L.length, i < j →
          (L.get ⟨j, hj⟩).isIncome = true → (L.get ⟨i, hi⟩).isIncome = true)
      ∧ L.filter MonthItem.isIncome
          = (monthItemsUnsorted [pSalary, p500] [] "2025-01").filter MonthItem.isIncome
      ∧ L.filter MonthItem.isExpense
          = (monthItemsUnsorted [pSalary, p500] [] "2025-01").filter MonthItem.isExpense :=
  claim_C7_income_precedes_expense [pSalary, p500] [] ["2025-01"] "2025-01" (by decide)

/-! ### Decimal printing of month keys (claim C6) -/

theorem char_eq_of_toNat {c d : Char} (h : c.toNat = d.toNat) : c = d :=
  Char.ext (UInt32.ext h)

theorem digitVal_digitChar (d : Nat) (hd : d < 10) : digitVal (digitChar d) = d := by
  interval_cases d <;> decide

theorem isDigitCh_digitChar (d : Nat) (hd : d < 10) : isDigitCh (digitChar d) = true := by
  interval_cases d <;> decide

theorem char_eq_digitChar (c : Char) (hc : isDigitCh c = true) : c = digitChar (digitVal c) := by
  have h1 : ('0' : Char) ≤ c ∧ c ≤ '9' := by
    simpa [isDigitCh, Bool.and_eq_true, decide_eq_true_iff] using hc
  have h48 : 48 ≤ c.toNat := h1.1
  have h57 : c.toNat ≤ 57 := h1.2
  have hcases : c.toNat = 48 ∨ c.toNat = 49 ∨ c.toNat = 50 ∨ c.toNat = 51 ∨ c.toNat = 52
      ∨ c.toNat = 53 ∨ c.toNat = 54 ∨ c.toNat = 55 ∨ c.toNat = 56 ∨ c.toNat = 57 := by
    omega
  rcases hcases with h | h | h | h | h | h | h | h | h | h
  · rw [show c = '0' from char_eq_of_toNat (by rw [h]; decide)]; decide
  · rw [show c = '1' from char_eq_of_toNat (by rw [h]; decide)]; decide
  · rw [show c = '2' from char_eq_of_toNat (by rw [h]; decide)]; decide
  · rw [show c = '3' from char_eq_of_toNat (by rw [h]; decide)]; decide
  · rw [show c = '4' from char_eq_of_toNat (by rw [h]; decide)]; decide
  · rw [show c = '5' from char_eq_of_toNat (by rw [h]; decide)]; decide
  · rw [show c = '6' from char_eq_of_toNat (by rw [h]; decide)]; decide
  · rw [show c = '7' from char_eq_of_toNat (by rw [h]; decide)]; decide
  · rw [show c = '8' from char_eq_of_toNat (by rw [h]; decide)]; decide
  · rw [show c = '9' from char_eq_of_toNat (by rw [h]; decide)]; decide

theorem digitsVal_append_one (xs : List Char) (c : Char) :
    digitsVal (xs ++ [c]) = 10 * digitsVal xs + digitVal c := by
  simp [digitsVal, List.foldl_append]

theorem natDigitsAux_fuel :
    ∀ (fuel1 : Nat) (fuel2 n : Nat), n < fuel1 → n < fuel2 →
      natDigitsAux fuel1 n = natDigitsAux fuel2 n := by
  intro fuel1
  induction fuel1 with
  | zero => intro fuel2 n h1 _; omega
  | succ f ih =>
    intro fuel2 n h1 h2
    cases fuel2 with
    | zero => omega
    | succ g =>
      unfold natDigitsAux
      by_cases h10 : n < 10
      · rw [if_pos h10, if_pos h10]
      · rw [if_neg h10, if_neg h10]
        have hdiv : n / 10 < n := Nat.div_lt_self (by omega) (by omega)
        rw [ih g (n / 10) (by omega) (by omega)]

theorem natDigitsAux_spec :
    ∀ (fuel n : Nat), n < fuel →
      digitsVal (natDigitsAux fuel n) = n
      ∧ (∀ c ∈ natDigitsAux fuel n, isDigitCh c = true)
      ∧ natDigitsAux fuel n ≠ [] := by
  intro fuel
  induction fuel with
  | zero => intro n h; omega
  | succ f ih =>
    intro n h
    unfold natDigitsAux
    by_cases h10 : n < 10
    · rw [if_pos h10]
      refine ⟨?_, ?_, by simp⟩
      · have := digitVal_digitChar n h10
        simp [digitsVal, this]
      · intro c hc
        rw [List.mem_singleton.mp hc]
        exact isDigitCh_digitChar n h10
    · rw [if_neg h10]
      have hdiv : n / 10 < n := Nat.div_lt_self (by omega) (by omega)
      obtain ⟨hval, hdig, hne⟩ := ih (n / 10) (by omega)
      refine ⟨?_, ?_, by simp⟩
      · rw [digitsVal_append_one, hval, digitVal_digitChar (n % 10) (by omega)]
        omega
      · intro c hc
        rcases List.mem_append.mp hc with hc2 | hc2
        · exact hdig c hc2
        · rw [List.mem_singleton.mp hc2]
          exact isDigitCh_digitChar (n % 10) (by omega)

theorem natDigits_val (n : Nat) : digitsVal (natDigits n) = n :=
  (natDigitsAux_spec (n + 1) n (by omega)).1

theorem natDigits_digits (n : Nat) : ∀ c ∈ natDigits n, isDigitCh c = true :=
  (natDigitsAux_spec (n + 1) n (by omega)).2.1

theorem natDigits_ne_nil (n : Nat) : natDigits n ≠ [] :=
  (natDigitsAux_spec (n + 1) n (by omega)).2.2

theorem natDigits_ten_mul_add (q r : Nat) (hq : 0 < q) (hr : r < 10) :
    natDigits (10 * q + r) = natDigits q ++ [digitChar r] := by
  unfold natDigits
  have h10 : ¬(10 * q + r < 10) := by omega
  conv_lhs => rw [natDigitsAux]
  rw [if_neg h10]
  have hdivq : (10 * q + r) / 10 = q := by omega
  have hmodr : (10 * q + r) % 10 = r := by omega
  rw [hdivq, hmodr]
  rw [natDigitsAux_fuel (10 * q + r) (q + 1) q (by omega) (by omega)]

theorem natDigitsAux_length_le :
    ∀ (fuel n k : Nat), n < fuel → n < 10 ^ k → 1 ≤ k →
      (natDigitsAux fuel n).length ≤ k := by
  intro fuel
  induction fuel with
  | zero => intro n k h _ _; omega
  | succ f ih =>
    intro n k h hpow hk
    unfold natDigitsAux
    by_cases h10 : n < 10
    · rw [if_pos h10]
      simpa using hk
    · rw [if_neg h10]
      have hdiv : n / 10 < n := Nat.div_lt_self (by omega) (by omega)
      have hk2 : 2 ≤ k := by
        by_contra hlt
        have hk1 : k = 1 := by omega
        rw [hk1] at hpow
        simp at hpow
        omega
      have hdivpow : n / 10 < 10 ^ (k - 1) := by
        rw [Nat.div_lt_iff_lt_mul (by omega : 0 < 10)]
        have : (10 : Nat) ^ (k - 1) * 10 = 10 ^ k := by
          rw [← pow_succ]
          congr 1
          omega
        omega
      have := ih (n / 10) (k - 1) (by omega) hdivpow (by omega)
      rw [List.length_append, List.length_singleton]
      omega

theorem natDigits_length_le (n k : Nat) (hpow : n < 10 ^ k) (hk : 1 ≤ k) :
    (natDigits n).length ≤ k :=
  natDigitsAux_length_le (n + 1) n k (by omega) hpow hk

theorem digitsVal_acc :
    ∀ (cs : List Char) (a : Nat),
      cs.foldl (fun x c => 10 * x + digitVal c) a = a * 10 ^ cs.length + digitsVal cs := by
  intro cs
  induction cs with
  | nil => intro a; simp [digitsVal]
  | cons c cs ih =>
    intro a
    rw [List.foldl_cons, ih]
    have h0 : digitsVal (c :: cs)
        = cs.foldl (fun x c2 => 10 * x + digitVal c2) (10 * 0 + digitVal c) := rfl
    rw [h0, ih, List.length_cons]
    ring

theorem digitsVal_cons (c : Char) (cs : List Char) :
    digitsVal (c :: cs) = digitVal c * 10 ^ cs.length + digitsVal cs := by
  have h0 : digitsVal (c :: cs)
      = cs.foldl (fun x c2 => 10 * x + digitVal c2) (10 * 0 + digitVal c) := rfl
  rw [h0, digitsVal_acc]
  ring

theorem eq_replicate_zero_of_val_zero :
    ∀ (cs : List Char), (∀ c ∈ cs, isDigitCh c = true) → digitsVal cs = 0 →
      cs = List.replicate cs.length '0' := by
  intro cs
  induction cs with
  | nil => intro _ _; rfl
  | cons c cs ih =>
    intro hdig hval
    rw [digitsVal_cons] at hval
    have hc0 : digitVal c = 0 := by
      have := Nat.pos_pow_of_pos cs.length (by omega : 0 < 10)
      nlinarith [Nat.eq_zero_of_add_eq_zero_right hval]
    have hcs : digitsVal cs = 0 := by omega
    have hch : c = '0' := by
      have h1 := char_eq_digitChar c (hdig c (List.mem_cons_self c cs))
      rw [hc0] at h1
      exact h1
    rw [List.length_cons, List.replicate_succ, hch]
    exact congrArg (fun l => '0' :: l)
      (ih (fun c2 hc2 => hdig c2 (List.mem_cons_of_mem c hc2)) hcs)

theorem digitsVal_replicate_zero_append :
    ∀ (k : Nat) (cs : List Char),
      digitsVal (List.replicate k '0' ++ cs) = digitsVal cs := by
  intro k
  induction k with
  | zero => intro cs; rfl
  | succ j ih =>
    intro cs
    rw [List.replicate_succ, List.cons_append]
    show digitsVal ('0' :: (List.replicate j '0' ++ cs)) = digitsVal cs
    unfold digitsVal
    rw [List.foldl_cons]
    have : (10 * 0 + digitVal '0') = 0 := by decide
    rw [this]
    exact ih cs

theorem pad_digits_val :
    ∀ (ds : List Char), ds ≠ [] → (∀ c ∈ ds, isDigitCh c = true) →
      padLeftZeros ds.length (natDigits (digitsVal ds)) = ds := by
  intro ds
  induction ds using List.reverseRecOn with
  | nil => intro h _; exact absurd rfl h
  | append_singleton xs c ih =>
    intro _ hdig
    have hc : isDigitCh c = true := hdig c (by simp)
    have hcv : digitVal c < 10 := by
      have h1 : ('0' : Char) ≤ c ∧ c ≤ '9' := by
        simpa [isDigitCh, Bool.and_eq_true, decide_eq_true_iff] using hc
      have h48 : 48 ≤ c.toNat := h1.1
      have h57 : c.toNat ≤ 57 := h1.2
      unfold digitVal
      omega
    have hchar : digitChar (digitVal c) = c := (char_eq_digitChar c hc).symm
    have hsingle : natDigits (digitVal c) = [c] := by
      unfold natDigits
      rw [natDigitsAux, if_pos hcv, hchar]
    rcases eq_or_ne xs [] with rfl | hne
    · have hval : digitsVal [c] = digitVal c := by
        simp [digitsVal]
      simp only [List.nil_append, List.length_singleton, hval, hsingle]
      simp [padLeftZeros]
    · by_cases hz : digitsVal xs = 0
      · have hxs : xs = List.replicate xs.length '0' :=
          eq_replicate_zero_of_val_zero xs
            (fun c2 hc2 => hdig c2 (List.mem_append_left _ hc2)) hz
        have hval : digitsVal (xs ++ [c]) = digitVal c := by
          rw [digitsVal_append_one, hz]
          omega
        rw [hval, hsingle]
        unfold padLeftZeros
        rw [List.length_append, List.length_singleton]
        have harith : xs.length + 1 - 1 = xs.length := by omega
        rw [harith]
        conv_rhs => rw [hxs]
      · have hq : 0 < digitsVal xs := Nat.pos_of_ne_zero hz
        rw [digitsVal_append_one, natDigits_ten_mul_add (digitsVal xs) (digitVal c) hq hcv,
          hchar]
        have hlen : (xs ++ [c]).length = xs.length + 1 := by simp
        rw [hlen]
        have hpad : ∀ (w : Nat) (ys : List Char) (c2 : Char),
            padLeftZeros (w + 1) (ys ++ [c2]) = padLeftZeros w ys ++ [c2] := by
          intro w ys c2
          unfold padLeftZeros
          rw [List.length_append, List.length_singleton]
          have harith : w + 1 - (ys.length + 1) = w - ys.length := by omega
          rw [harith, List.append_assoc]
        rw [hpad, ih hne (fun c2 hc2 => hdig c2 (List.mem_append_left _ hc2))]

theorem takeWhile_append_split (p : Char → Bool) :
    ∀ (ys : List Char) (x : Char) (rs : List Char),
      (∀ y ∈ ys, p y = true) → p x = false →
      (ys ++ x :: rs).takeWhile p = ys ∧ (ys ++ x :: rs).dropWhile p = x :: rs := by
  intro ys
  induction ys with
  | nil =>
    intro x rs _ hx
    constructor
    · rw [List.nil_append, List.takeWhile_cons]
      simp [hx]
    · rw [List.nil_append, List.dropWhile_cons]
      simp [hx]
  | cons y ys ih =>
    intro x rs hys hx
    have hy : p y = true := hys y (List.mem_cons_self y ys)
    obtain ⟨ht, hd⟩ := ih x rs (fun z hz => hys z (List.mem_cons_of_mem y hz)) hx
    constructor
    · rw [List.cons_append, List.takeWhile_cons, hy]
      simp [ht]
    · rw [List.cons_append, List.dropWhile_cons]
      simp [hy, hd]

theorem yearChars_digits (y : Nat) : ∀ c ∈ yearChars y, isDigitCh c = true := by
  intro c hcmem
  unfold yearChars padLeftZeros at hcmem
  rcases List.mem_append.mp hcmem with h | h
  · rw [List.eq_of_mem_replicate h]; decide
  · exact natDigits_digits _ c h

theorem yearChars_val (y : Nat) : digitsVal (yearChars y) = y := by
  unfold yearChars padLeftZeros
  rw [digitsVal_replicate_zero_append, natDigits_val]

theorem yearChars_len (y : Nat) : 4 ≤ (yearChars y).length := by
  unfold yearChars padLeftZeros
  rw [List.length_append, List.length_replicate]
  omega

theorem monthChars_digits (mo : Nat) : ∀ c ∈ monthChars mo, isDigitCh c = true := by
  intro c hcmem
  unfold monthChars padLeftZeros at hcmem
  rcases List.mem_append.mp hcmem with h | h
  · rw [List.eq_of_mem_replicate h]; decide
  · exact natDigits_digits _ c h

theorem monthChars_val (mo : Nat) : digitsVal (monthChars mo) = mo := by
  unfold monthChars padLeftZeros
  rw [digitsVal_replicate_zero_append, natDigits_val]

theorem monthChars_len (mo : Nat) (h : mo < 100) : (monthChars mo).length = 2 := by
  have h2 : (natDigits mo).length ≤ 2 := by
    apply natDigits_length_le mo 2 ?_ (by omega)
    have : (10 : Nat) ^ 2 = 100 := by norm_num
    omega
  unfold monthChars padLeftZeros
  rw [List.length_append, List.length_replicate]
  omega

theorem digitsVal_pair (m1 m2 : Char) :
    digitsVal [m1, m2] = 10 * digitVal m1 + digitVal m2 := by
  have h0 : digitsVal [m1, m2]
      = [m2].foldl (fun x c2 => 10 * x + digitVal c2) (10 * 0 + digitVal m1) := rfl
  rw [h0]
  simp [List.foldl_cons]

theorem keyTail_cons (c m1 m2 : Char) (dslen dsval : Nat) :
    keyTail [c, m1, m2] dslen dsval
      = if c = '-' ∧ 4 ≤ dslen ∧ isDigitCh m1 = true ∧ isDigitCh m2 = true
            ∧ 1 ≤ digitVal m1 * 10 + digitVal m2 ∧ digitVal m1 * 10 + digitVal m2 ≤ 12 then
          some (dsval * 12 + (digitVal m1 * 10 + digitVal m2 - 1))
        else none := rfl

theorem keyMonthVal_formatMonthIdx (k : Nat) : keyMonthVal (formatMonthIdx k) = some k := by
  have hdata : (formatMonthIdx k).data
      = yearChars (k / 12) ++ '-' :: monthChars (k % 12 + 1) := rfl
  have hmlen : (monthChars (k % 12 + 1)).length = 2 := monthChars_len _ (by omega)
  obtain ⟨m1, m2, hm12⟩ := List.length_eq_two.mp hmlen
  have hsplit := takeWhile_append_split isDigitCh (yearChars (k / 12)) '-'
    (monthChars (k % 12 + 1)) (yearChars_digits _) (by decide)
  have hm1d : isDigitCh m1 = true := monthChars_digits _ m1 (by rw [hm12]; simp)
  have hm2d : isDigitCh m2 = true := monthChars_digits _ m2 (by rw [hm12]; simp)
  have hmoval : 10 * digitVal m1 + digitVal m2 = k % 12 + 1 := by
    have h1 := monthChars_val (k % 12 + 1)
    rw [hm12, digitsVal_pair] at h1
    exact h1
  unfold keyMonthVal
  rw [hdata, hsplit.1, hsplit.2, hm12, keyTail_cons]
  rw [if_pos]
  · rw [yearChars_val]
    congr 1
    omega
  · refine ⟨rfl, yearChars_len _, hm1d, hm2d, by omega, by omega⟩

theorem parseMonthKey_of_data (s : String) (l : List Char) (h : s.data = l) :
    parseMonthKey s = parseMonthKey ⟨l⟩ :=
  congrArg parseMonthKey (String.ext h)

theorem parseMonthKey_seven (a b c d dash e f : Char) :
    parseMonthKey ⟨[a, b, c, d, dash, e, f]⟩
      = if dash = '-' ∧ isDigitCh a = true ∧ isDigitCh b = true ∧ isDigitCh c = true
            ∧ isDigitCh d = true ∧ isDigitCh e = true ∧ isDigitCh f = true
            ∧ 1 ≤ digitVal e * 10 + digitVal f ∧ digitVal e * 10 + digitVal f ≤ 12 then
          some (((digitVal a * 10 + digitVal b) * 10 + digitVal c) * 10 + digitVal d,
            digitVal e * 10 + digitVal f)
        else none := rfl

theorem formatMonthIdx_parse (s : String) (y mo : Nat)
    (hparse : parseMonthKey s = some (y, mo)) :
    formatMonthIdx (monthIdxOf y mo) = s := by
  -- the key must have the literal seven-character shape
  match hdata : s.data with
  | [a, b, c, d, dash, e, f] =>
    rw [parseMonthKey_of_data s _ hdata, parseMonthKey_seven] at hparse
    by_cases hcond : dash = '-' ∧ isDigitCh a = true ∧ isDigitCh b = true
        ∧ isDigitCh c = true ∧ isDigitCh d = true ∧ isDigitCh e = true ∧ isDigitCh f = true
        ∧ 1 ≤ digitVal e * 10 + digitVal f ∧ digitVal e * 10 + digitVal f ≤ 12
    · rw [if_pos hcond] at hparse
      obtain ⟨hdash, hda, hdb, hdc, hdd, hde, hdf, hmo1, hmo2b⟩ := hcond
      subst hdash
      have hy : y = ((digitVal a * 10 + digitVal b) * 10 + digitVal c) * 10 + digitVal d :=
        (Prod.mk.injEq _ _ _ _ ▸ Option.some.inj hparse).1.symm
      have hmo2 : mo = digitVal e * 10 + digitVal f :=
        (Prod.mk.injEq _ _ _ _ ▸ Option.some.inj hparse).2.symm
      have hyval : digitsVal [a, b, c, d] = y := by
        have h1 : digitsVal [a, b, c, d]
            = [b, c, d].foldl (fun x c2 => 10 * x + digitVal c2) (10 * 0 + digitVal a) :=
          rfl
        rw [hy, h1]
        simp [List.foldl_cons]
        ring
      have hmval : digitsVal [e, f] = mo := by
        rw [digitsVal_pair, hmo2]
        omega
      have hk12 : monthIdxOf y mo / 12 = y ∧ monthIdxOf y mo % 12 = mo - 1 := by
        unfold monthIdxOf
        omega
      unfold formatMonthIdx
      rw [hk12.1, hk12.2]
      have hmo3 : mo - 1 + 1 = mo := by omega
      rw [hmo3]
      have hyear : yearChars y = [a, b, c, d] := by
        have h4 : ([a, b, c, d] : List Char).length = 4 := rfl
        have := pad_digits_val [a, b, c, d] (by simp)
          (by
            intro c2 hc2
            simp only [List.mem_cons, List.not_mem_nil, or_false] at hc2
            rcases hc2 with rfl | rfl | rfl | rfl
            · exact hda
            · exact hdb
            · exact hdc
            · exact hdd)
        rw [h4, hyval] at this
        exact this
      have hmonth : monthChars mo = [e, f] := by
        have h2 : ([e, f] : List Char).length = 2 := rfl
        have := pad_digits_val [e, f] (by simp)
          (by
            intro c2 hc2
            simp only [List.mem_cons, List.not_mem_nil, or_false] at hc2
            rcases hc2 with rfl | rfl
            · exact hde
            · exact hdf)
        rw [h2, hmval] at this
        exact this
      apply String.ext
      rw [hdata]
      show yearChars y ++ '-' :: monthChars mo = [a, b, c, d, '-', e, f]
      rw [hyear, hmonth]
      rfl
    · rw [if_neg hcond] at hparse
      cases hparse
  | [] =>
    rw [parseMonthKey_of_data s _ hdata] at hparse
    cases hparse
  | [c1] =>
    rw [parseMonthKey_of_data s _ hdata] at hparse
    cases hparse
  | [c1, c2] =>
    rw [parseMonthKey_of_data s _ hdata] at hparse
    cases hparse
  | [c1, c2, c3] =>
    rw [parseMonthKey_of_data s _ hdata] at hparse
    cases hparse
  | [c1, c2, c3, c4] =>
    rw [parseMonthKey_of_data s _ hdata] at hparse
    cases hparse
  | [c1, c2, c3, c4, c5] =>
    rw [parseMonthKey_of_data s _ hdata] at hparse
    cases hparse
  | [c1, c2, c3, c4, c5, c6] =>
    rw [parseMonthKey_of_data s _ hdata] at hparse
    cases hparse
  | c1 :: c2 :: c3 :: c4 :: c5 :: c6 :: c7 :: c8 :: rest =>
    rw [parseMonthKey_of_data s _ hdata] at hparse
    cases hparse

/-- C6: for a well-formed start key and any count `n ≥ 1`, the month range
has exactly `n` keys, begins with the start key, and each successive key
denotes exactly the next calendar month (so the months strictly increase
with no skips or repeats, across year boundaries included); with the
concrete example starting at 2025-11. -/
theorem claim_C6_month_range (s : String) (y mo n : Nat)
    (hparse : parseMonthKey s = some (y, mo)) (hn : 1 ≤ n) :
    (generateMonthRange s n).length = n
    ∧ (generateMonthRange s n).head? = some s
    ∧ (∀ i, i + 1 < n →
        ∃ v, keyMonthVal ((generateMonthRange s n).getD i "") = some v
          ∧ keyMonthVal ((generateMonthRange s n).getD (i + 1) "") = some (v + 1))
    ∧ generateMonthRange "2025-11" 4 = ["2025-11", "2025-12", "2026-01", "2026-02"] := by
  have hgen : generateMonthRange s n
      = (List.range n).map (fun i => formatMonthIdx (monthIdxOf y mo + i)) := by
    unfold generateMonthRange
    rw [hparse]
  refine ⟨?_, ?_, ?_, by decide⟩
  · rw [hgen]
    simp
  · rw [hgen, List.head?_eq_getElem?, List.getElem?_map,
      List.getElem?_range (by omega : 0 < n)]
    simp only [Option.map_some', Nat.add_zero]
    rw [formatMonthIdx_parse s y mo hparse]
  · intro i hi
    refine ⟨monthIdxOf y mo + i, ?_, ?_⟩
    · rw [hgen, List.getD_eq_getElem?_getD, List.getElem?_map,
        List.getElem?_range (by omega : i < n)]
      simp only [Option.map_some', Option.getD_some]
      exact keyMonthVal_formatMonthIdx _
    · rw [hgen, List.getD_eq_getElem?_getD, List.getElem?_map,
        List.getElem?_range (by omega : i + 1 < n)]
      simp only [Option.map_some', Option.getD_some]
      rw [show monthIdxOf y mo + (i + 1) = (monthIdxOf y mo + i) + 1 from by omega]
      exact keyMonthVal_formatMonthIdx _

theorem claim_C6_month_range_witness :
    (generateMonthRange "2025-11" 4).length = 4
    ∧ (generateMonthRange "2025-11" 4).head? = some "2025-11" :=
  ⟨(claim_C6_month_range "2025-11" 2025 11 4 (by decide) (by decide)).1,
    (claim_C6_month_range "2025-11" 2025 11 4 (by decide) (by decide)).2.1⟩

end Cashflow
